import Mathlib

/-!
Verification of the party-coordination backend (Albion Party Planner).

This file shallowly embeds the membership/slot-allocation engine and the chat
broadcaster of the repository (app/main.py, app/services.py, app/models.py)
and proves or refutes the frozen specification claims about them.

Modelling conventions:
  * SQLModel tables become Lean structures; the database session becomes an
    explicit `DB` value.  Handlers return `DB × Except Err α`: the returned
    `DB` is the persisted database after the call (the `get_session`
    dependency closes the session without committing on an exception, so an
    error path rolls every pending change back and returns the input `DB`).
  * Python integers are `Nat` (all relevant ints are non-negative: ids,
    capacities with `ge=1`, `ip_target` with `ge=0`); the one subtraction
    (`capacity - slot_count` in calculate_open_slot_count) is done in `Int`
    exactly as the source writes it.
  * Python truthiness on optional ints (`if party.capacity`, `x or y`) is
    modelled by `capTruthy`, which maps both `None` and `0` to `none`.
  * String-valued enums validated by regex (member states, visibility)
    become closed inductive types.
  * Free-text columns never read by any handler (description, schedule,
    host_tip, voice_channel_link, status, created_at timestamps, gear
    presets, requested_slot_id) are omitted from the record structures.
-/

/-- Member lifecycle states (models.py `MemberState`). -/
inductive MemberState where
  | waiting
  | applied
  | accepted
  | locked
  | rejected
  | kicked
deriving DecidableEq, Repr

/-- Party visibility (models.py `PartyVisibility`); `pub`/`priv` stand for
the source's "public"/"private" strings. -/
inductive PartyVisibility where
  | pub
  | priv
deriving DecidableEq, Repr

/-- User roles (models.py `UserRole`). -/
inductive UserRole where
  | admin
  | user
  | guest
deriving DecidableEq, Repr

/-- A registered user record (models.py `User`); only the fields consulted
by authorization logic are kept. -/
structure User where
  username : String
  role : UserRole
deriving DecidableEq, Repr

/-- Party record (models.py `Party`). -/
structure Party where
  id : Nat
  title : String
  visibility : PartyVisibility
  capacity : Option Nat
  openSlotCount : Option Int
  hostId : String
  hostName : String
  inviteCode : Option String
deriving DecidableEq, Repr

/-- Slot record (models.py `PartySlot`). -/
structure Slot where
  id : Nat
  partyId : Nat
  role : String
  ipTarget : Option Nat
deriving DecidableEq, Repr

/-- Member record (models.py `PartyMember`). -/
structure Member where
  id : Nat
  partyId : Nat
  slotId : Option Nat
  applicantName : String
  state : MemberState
deriving DecidableEq, Repr

/-- Chat message record (models.py `ChatMessage`). -/
structure ChatMessage where
  id : Nat
  partyId : Nat
  memberId : Option Nat
  authorName : String
  content : String
deriving DecidableEq, Repr

/-- The persisted database: one list per table plus the next primary key
(SQLite assigns increasing autoincrement ids). -/
structure DB where
  parties : List Party
  slots : List Slot
  members : List Member
  messages : List ChatMessage
  nextId : Nat
deriving DecidableEq, Repr

/-- Error kinds raised by the handlers (HTTPException status/detail pairs). -/
inductive Err where
  | partyNotFound
  | slotNotFound
  | memberNotFound
  | permissionDenied
  | capacityExceeded
  | slotCapacityExceeded
  | invalidStateForMove
  | emptyMessage
  | validationError
  | attributeError
deriving DecidableEq, Repr

deriving instance DecidableEq for Except

/-- session.get(Party, party_id): primary-key lookup. -/
def findParty (db : DB) (pid : Nat) : Option Party :=
  db.parties.find? (fun p => p.id == pid)

/-- session.get(PartySlot, slot_id). -/
def findSlot (db : DB) (sid : Nat) : Option Slot :=
  db.slots.find? (fun s => s.id == sid)

/-- session.get(PartyMember, member_id). -/
def findMember (db : DB) (mid : Nat) : Option Member :=
  db.members.find? (fun m => m.id == mid)

/-- state in (ACCEPTED, LOCKED): a "confirmed" member counts against
capacity. -/
def confirmedB (s : MemberState) : Bool :=
  s == MemberState.accepted || s == MemberState.locked

/-- _count_confirmed_members (main.py:114-123) without exclusion. -/
def confirmedCount (db : DB) (pid : Nat) : Nat :=
  db.members.countP (fun m => m.partyId == pid && confirmedB m.state)

/-- _count_confirmed_members with `exclude_member_id` set. -/
def confirmedCountExcl (db : DB) (pid mid : Nat) : Nat :=
  db.members.countP (fun m => (m.partyId == pid && confirmedB m.state) && m.id != mid)

/-- _count_slot_confirmed_members (main.py:131-140) without exclusion. -/
def slotConfirmedCount (db : DB) (sid : Nat) : Nat :=
  db.members.countP (fun m => m.slotId == some sid && confirmedB m.state)

/-- _count_slot_confirmed_members with `exclude_member_id` set. -/
def slotConfirmedCountExcl (db : DB) (sid mid : Nat) : Nat :=
  db.members.countP (fun m => (m.slotId == some sid && confirmedB m.state) && m.id != mid)

/-- Python truthiness of an optional int: both `None` and `0` are falsy
(`if party.capacity`, `slot.ip_target or party.capacity`). -/
def capTruthy : Option Nat → Option Nat
  | none => none
  | some 0 => none
  | some c => some c

/-- slot_limit = target_slot.ip_target or party.capacity (main.py:160). -/
def slotLimit (slot : Slot) (party : Party) : Option Nat :=
  match capTruthy slot.ipTarget with
  | some k => some k
  | none => capTruthy party.capacity

/-- The per-slot half of _ensure_capacity_constraints (main.py:159-166). -/
def ensureSlotCapacity (db : DB) (party : Party) (targetSlot : Option Slot)
    (member : Member) : Except Err Unit :=
  match targetSlot with
  | none => Except.ok ()
  | some slot =>
    match slotLimit slot party with
    | none => Except.ok ()
    | some lim =>
      if lim ≤ slotConfirmedCountExcl db slot.id member.id then
        Except.error Err.slotCapacityExceeded
      else Except.ok ()

/-- _ensure_capacity_constraints (main.py:143-166): skipped unless the
target state is confirmed; party-wide count first, then the slot count. -/
def ensureCapacityConstraints (db : DB) (party : Party) (targetSlot : Option Slot)
    (member : Member) (targetState : MemberState) : Except Err Unit :=
  if confirmedB targetState then
    match capTruthy party.capacity with
    | some c =>
      if c ≤ confirmedCountExcl db party.id member.id then
        Except.error Err.capacityExceeded
      else ensureSlotCapacity db party targetSlot member
    | none => ensureSlotCapacity db party targetSlot member
  else Except.ok ()

/-- Update the member row with primary key `mid` (ORM identity map: the
handler mutates the loaded object and re-adds it). -/
def updIf (mid : Nat) (f : Member → Member) (m : Member) : Member :=
  if m.id == mid then f m else m

def setMember (db : DB) (mid : Nat) (f : Member → Member) : DB :=
  { db with members := db.members.map (updIf mid f) }

/-- Update the party row with primary key `pid`. -/
def updPartyIf (pid : Nat) (f : Party → Party) (p : Party) : Party :=
  if p.id == pid then f p else p

def setParty (db : DB) (pid : Nat) (f : Party → Party) : DB :=
  { db with parties := db.parties.map (updPartyIf pid f) }

/-- calculate_open_slot_count (services.py:17-21). -/
def slotCount (db : DB) (pid : Nat) : Nat :=
  db.slots.countP (fun s => s.partyId == pid)

def calculateOpenSlotCount (db : DB) (party : Party) : Option Int :=
  match party.capacity with
  | none => none
  | some c => some (max ((c : Int) - (slotCount db party.id : Int)) 0)

/-- update_open_slot_count (services.py:24-29): refreshes the cached derived
column and commits. -/
def updateOpenSlotCount (db : DB) (party : Party) : DB :=
  setParty db party.id (fun p => { p with openSlotCount := calculateOpenSlotCount db p })

/-- move_member_to_slot (main.py:169-207), as invoked with `party` and
`member` preloaded and commit=False: the returned DB carries the uncommitted
slot change of the enclosing transaction. -/
def moveMemberToSlot (db : DB) (party : Party) (member : Member)
    (targetSlotId : Nat) (targetState : MemberState) : Except Err (DB × Member) :=
  if member.partyId ≠ party.id then Except.error Err.memberNotFound
  else
    match findSlot db targetSlotId with
    | none => Except.error Err.slotNotFound
    | some slot =>
      if slot.partyId ≠ party.id then Except.error Err.slotNotFound
      else if member.slotId = some slot.id then Except.ok (db, member)
      else if member.state = MemberState.locked ∨ member.state = MemberState.rejected then
        Except.error Err.invalidStateForMove
      else
        match ensureCapacityConstraints db party (some slot) member targetState with
        | Except.error e => Except.error e
        | Except.ok _ =>
          Except.ok (setMember db member.id (fun m => { m with slotId := some slot.id }),
                     { member with slotId := some slot.id })

/-- target_slot = session.get(PartySlot, member.slot_id) if member.slot_id
else None (main.py:405); `member.slot_id` equal to 0 is falsy in Python. -/
def resolveCurrentSlot (db : DB) (member : Member) : Option Slot :=
  match member.slotId with
  | none => none
  | some sid => if sid = 0 then none else findSlot db sid

/-- Target state and slot sent to the transition endpoint
(models.py `PartyMemberStateUpdate`; the state regex admits exactly the six
member states). -/
structure StateUpdate where
  state : MemberState
  slotId : Option Nat
deriving DecidableEq, Repr

/-- The slot-move phase of update_member_state (main.py:405-417): reassign
only when a target slot is given and differs from the current one, else keep
the current slot as capacity-check target. -/
def moveIfRequested (db : DB) (party : Party) (member : Member)
    (payload : StateUpdate) : Except Err (DB × Member × Option Slot) :=
  match payload.slotId with
  | none => Except.ok (db, member, resolveCurrentSlot db member)
  | some t =>
    if member.slotId = some t then Except.ok (db, member, resolveCurrentSlot db member)
    else
      match moveMemberToSlot db party member t payload.state with
      | Except.error e => Except.error e
      | Except.ok (work, member1) => Except.ok (work, member1, findSlot work t)

/-- update_member_state (main.py:392-425).  The one commit happens after
every check has passed; any raised error leaves the persisted DB intact. -/
def updateMemberState (db : DB) (partyId memberId : Nat) (payload : StateUpdate)
    (hostId : String) : DB × Except Err Member :=
  match findParty db partyId with
  | none => (db, Except.error Err.partyNotFound)
  | some party =>
    if party.hostId ≠ hostId then (db, Except.error Err.permissionDenied)
    else
      match findMember db memberId with
      | none => (db, Except.error Err.memberNotFound)
      | some member =>
        if member.partyId ≠ partyId then (db, Except.error Err.memberNotFound)
        else
          match moveIfRequested db party member payload with
          | Except.error e => (db, Except.error e)
          | Except.ok (work, member1, targetSlot) =>
            match ensureCapacityConstraints work party targetSlot member1 payload.state with
            | Except.error e => (db, Except.error e)
            | Except.ok _ =>
              (setMember work memberId (fun m => { m with state := payload.state }),
               Except.ok { member1 with state := payload.state })

/-- remove_member (main.py:433-453): host check is by host_name here; the
member is tombstoned as KICKED and freed from its slot. -/
def removeMember (db : DB) (partyId memberId : Nat) (hostName : String) :
    DB × Except Err Member :=
  match findParty db partyId with
  | none => (db, Except.error Err.partyNotFound)
  | some party =>
    if party.hostName ≠ hostName then (db, Except.error Err.permissionDenied)
    else
      match findMember db memberId with
      | none => (db, Except.error Err.memberNotFound)
      | some member =>
        if member.partyId ≠ partyId then (db, Except.error Err.memberNotFound)
        else
          (setMember db memberId
             (fun m => { m with state := MemberState.kicked, slotId := none }),
           Except.ok { member with state := MemberState.kicked, slotId := none })

/-- Application payload (models.py `PartyMemberCreate`). -/
structure MemberCreate where
  applicantName : String
  slotId : Option Nat
deriving DecidableEq, Repr

/-- The `_get_slot_or_404` guard on an optional requested slot
(main.py:370-372): absent is fine, present must name a slot of this party. -/
def validateSlotRef (db : DB) (partyId : Nat) (slotId : Option Nat) : Except Err Unit :=
  match slotId with
  | none => Except.ok ()
  | some sid =>
    match findSlot db sid with
    | none => Except.error Err.slotNotFound
    | some slot =>
      if slot.partyId ≠ partyId then Except.error Err.slotNotFound else Except.ok ()

/-- The freshly inserted APPLIED member record (main.py:374-380). -/
def newApplicant (db : DB) (partyId : Nat) (payload : MemberCreate) : Member :=
  { id := db.nextId, partyId := partyId, slotId := payload.slotId,
    applicantName := payload.applicantName, state := MemberState.applied }

/-- apply_to_party (main.py:362-384): public parties only; an optional slot
must exist in this party; the member starts in state APPLIED. -/
def applyToParty (db : DB) (partyId : Nat) (payload : MemberCreate) :
    DB × Except Err Member :=
  match findParty db partyId with
  | none => (db, Except.error Err.partyNotFound)
  | some party =>
    if party.visibility = PartyVisibility.priv then (db, Except.error Err.permissionDenied)
    else
      match validateSlotRef db partyId payload.slotId with
      | Except.error e => (db, Except.error e)
      | Except.ok _ =>
        ({ db with members := db.members ++ [newApplicant db partyId payload],
                   nextId := db.nextId + 1 },
         Except.ok (newApplicant db partyId payload))

/-- Join-by-code payload (models.py `PartyJoinByCode`): only invite_code and
applicant_name exist. -/
structure JoinByCode where
  inviteCode : String
  applicantName : String
deriving DecidableEq, Repr

/-- join_party_by_code (main.py:322-353).  After the party lookup the
handler reads `payload.slot_id` (main.py:334), but `PartyJoinByCode`
declares no such field, so the attribute access raises before any write and
the transaction is rolled back: no member is ever created on this path. -/
def joinByCode (db : DB) (payload : JoinByCode) : DB × Except Err Member :=
  match db.parties.find? (fun p =>
      decide (p.visibility = PartyVisibility.priv ∧ p.inviteCode = some payload.inviteCode)) with
  | none => (db, Except.error Err.partyNotFound)
  | some _ => (db, Except.error Err.attributeError)

/-- Party creation payload (models.py `PartyCreate`): pydantic validates
`capacity` with ge=1 before the handler runs. -/
structure PartyCreate where
  title : String
  visibility : PartyVisibility
  capacity : Option Nat
  hostId : String
  hostName : String
  inviteCode : Option String
deriving DecidableEq, Repr

def validCapacity : Option Nat → Bool
  | none => true
  | some c => decide (1 ≤ c)

/-- A PRIVATE party with a falsy invite code (absent or empty string) gets
a generated numeric code (main.py:249-251); the generator is random, its
value irrelevant here, modelled by a fixed placeholder. -/
def mkInviteCode (payload : PartyCreate) : Option String :=
  if payload.visibility = PartyVisibility.priv ∧
     (payload.inviteCode = none ∨ payload.inviteCode = some "") then some "0000"
  else payload.inviteCode

/-- The new party row (main.py:253). -/
def mkParty (db : DB) (payload : PartyCreate) : Party :=
  { id := db.nextId, title := payload.title, visibility := payload.visibility,
    capacity := payload.capacity, openSlotCount := none, hostId := payload.hostId,
    hostName := payload.hostName, inviteCode := mkInviteCode payload }

/-- create_party (main.py:247-258). -/
def createParty (db : DB) (payload : PartyCreate) : DB × Except Err Party :=
  if validCapacity payload.capacity = false then (db, Except.error Err.validationError)
  else
    (updateOpenSlotCount
       { db with parties := db.parties ++ [mkParty db payload], nextId := db.nextId + 1 }
       (mkParty db payload),
     Except.ok (mkParty db payload))

/-- Slot creation payload (models.py `PartySlotCreate`): ip_target ge=0. -/
structure SlotCreate where
  role : String
  ipTarget : Option Nat
deriving DecidableEq, Repr

def insertSlot (db : DB) (partyId : Nat) (payload : SlotCreate) : DB × Slot :=
  let s : Slot := { id := db.nextId, partyId := partyId, role := payload.role,
                    ipTarget := payload.ipTarget }
  ({ db with slots := db.slots ++ [s], nextId := db.nextId + 1 }, s)

/-- open_slots is not None and open_slots <= 0 (main.py:305). -/
def openGateClosed (db : DB) (party : Party) : Bool :=
  match calculateOpenSlotCount db party with
  | none => false
  | some k => decide (k ≤ 0)

/-- create_slot (main.py:296-313): host check via verify_host_permission
(services.py:8-14), open-slot-count gate, insert, cache refresh. -/
def createSlot (db : DB) (partyId : Nat) (payload : SlotCreate) (hostId : String) :
    DB × Except Err Slot :=
  match findParty db partyId with
  | none => (db, Except.error Err.partyNotFound)
  | some party =>
    if party.hostId ≠ hostId then (db, Except.error Err.permissionDenied)
    else if openGateClosed db party then (db, Except.error Err.capacityExceeded)
    else
      (updateOpenSlotCount (insertSlot db partyId payload).1 party,
       Except.ok (insertSlot db partyId payload).2)

/-- _require_active_member (main.py:208-215): party must exist; the member
record must exist, belong to the party, and not be REJECTED.  Every other
state (including KICKED) passes. -/
def requireActiveMember (db : DB) (partyId memberId : Nat) : Except Err Member :=
  match findParty db partyId with
  | none => Except.error Err.partyNotFound
  | some _ =>
    match findMember db memberId with
    | none => Except.error Err.permissionDenied
    | some m =>
      if m.partyId ≠ partyId then Except.error Err.permissionDenied
      else if m.state = MemberState.rejected then Except.error Err.permissionDenied
      else Except.ok m

/-- Python str.strip(): drop whitespace from both ends (structural
implementation so that concrete evaluation reduces in the kernel). -/
def pyStrip (s : String) : String :=
  String.mk (((s.data.dropWhile Char.isWhitespace).reverse.dropWhile
    Char.isWhitespace).reverse)

/-- not content or not content.strip() (main.py:232). -/
def blankContent (content : String) : Bool :=
  content == "" || pyStrip content == ""

/-- Chat post payload (models.py `ChatMessageCreate`). -/
structure ChatCreate where
  memberId : Nat
  content : String
  authorName : Option String
deriving DecidableEq, Repr

/-- The chat broadcaster registry (main.py `PartyWebSocketManager`): a dict
from party id to the set of live connections, here identified by `Nat`. -/
structure Manager where
  keys : Finset Nat
  chan : Nat → Finset Nat

/-- The snapshot of a party's channel that broadcast iterates over
(`self.active_connections.get(party_id, set())`). -/
def channelSet (m : Manager) (pid : Nat) : Finset Nat :=
  if pid ∈ m.keys then m.chan pid else ∅

/-- connect (main.py:53-55): setdefault(party_id, set()).add(websocket). -/
def Manager.connect (m : Manager) (pid ws : Nat) : Manager :=
  { keys := insert pid m.keys,
    chan := Function.update m.chan pid (insert ws (channelSet m pid)) }

/-- disconnect (main.py:57-61): discard, then drop the key if the set became
empty. -/
def Manager.disconnect (m : Manager) (pid ws : Nat) : Manager :=
  if pid ∈ m.keys then
    let s := (m.chan pid).erase ws
    if s = ∅ then { keys := m.keys.erase pid, chan := Function.update m.chan pid s }
    else { keys := m.keys, chan := Function.update m.chan pid s }
  else m

/-- broadcast (main.py:63-68): iterate a snapshot of the channel; a
connection whose send raises (the `failing` set) is disconnected, the rest
keep their registration. -/
def Manager.broadcastClean (m : Manager) (pid : Nat) (failing : List Nat) : Manager :=
  ((channelSet m pid).sort (· ≤ ·)).foldl
    (fun acc ws => if ws ∈ failing then acc.disconnect pid ws else acc) m

/-- post_chat_message (main.py:487-499) together with _create_chat_message
(main.py:229-244): authorize, validate content, persist (author falls back
to the member's applicant_name when the given one is absent or empty), then
broadcast to the party's channel.  The middle component is the set of
connections the broadcast delivers to; on any error it is empty because the
exception propagates before `manager.broadcast` runs. -/
def postChatMessage (db : DB) (mgr : Manager) (partyId : Nat) (payload : ChatCreate) :
    DB × Finset Nat × Except Err ChatMessage :=
  match requireActiveMember db partyId payload.memberId with
  | Except.error e => (db, ∅, Except.error e)
  | Except.ok member =>
    if blankContent payload.content then (db, ∅, Except.error Err.emptyMessage)
    else
      let author : String :=
        match payload.authorName with
        | none => member.applicantName
        | some a => if a = "" then member.applicantName else a
      let msg : ChatMessage := { id := db.nextId, partyId := partyId,
                                 memberId := some member.id, authorName := author,
                                 content := pyStrip payload.content }
      ({ db with messages := db.messages ++ [msg], nextId := db.nextId + 1 },
       channelSet mgr partyId, Except.ok msg)

/-- get_chat_history (main.py:502-517): same authorization, newest `limit`
messages of the party in chronological order. -/
def getChatHistory (db : DB) (partyId memberId limit : Nat) :
    Except Err (List ChatMessage) :=
  match requireActiveMember db partyId memberId with
  | Except.error e => Except.error e
  | Except.ok _ =>
    Except.ok (((db.messages.filter (fun msg => msg.partyId == partyId)).reverse.take
        limit).reverse)

/-- verify_host_permission (services.py:8-14): the only datum consulted is
the host_id string; no role is ever read. -/
def verifyHostPermission (db : DB) (partyId : Nat) (hostId : String) : Except Err Party :=
  match findParty db partyId with
  | none => Except.error Err.partyNotFound
  | some party =>
    if party.hostId ≠ hostId then Except.error Err.permissionDenied
    else Except.ok party

/-- The empty database; SQLite autoincrement ids start at 1. -/
def initDB : DB := { parties := [], slots := [], members := [], messages := [], nextId := 1 }

/-- The public mutating operations the invariant claims quantify over. -/
inductive Op where
  | createParty (payload : PartyCreate)
  | createSlot (partyId : Nat) (payload : SlotCreate) (hostId : String)
  | applyToParty (partyId : Nat) (payload : MemberCreate)
  | joinByCode (payload : JoinByCode)
  | updateMemberState (partyId memberId : Nat) (payload : StateUpdate) (hostId : String)
  | removeMember (partyId memberId : Nat) (hostName : String)
deriving DecidableEq, Repr

def step (db : DB) : Op → DB
  | Op.createParty payload => (createParty db payload).1
  | Op.createSlot partyId payload hostId => (createSlot db partyId payload hostId).1
  | Op.applyToParty partyId payload => (applyToParty db partyId payload).1
  | Op.joinByCode payload => (joinByCode db payload).1
  | Op.updateMemberState partyId memberId payload hostId =>
      (updateMemberState db partyId memberId payload hostId).1
  | Op.removeMember partyId memberId hostName => (removeMember db partyId memberId hostName).1

def runOps (ops : List Op) : DB := ops.foldl step initDB

/-! ### Counting lemmas for single-row updates -/

theorem countP_split (ms : List Member) (q : Member → Bool) (mid : Nat) :
    ms.countP q =
      ms.countP (fun m => q m && m.id != mid) + ms.countP (fun m => q m && m.id == mid) := by
  induction ms with
  | nil => rfl
  | cons a t ih =>
    simp only [List.countP_cons, ih]
    cases hq : q a <;> cases hid : a.id == mid <;>
      simp only [hq, hid, bne, Bool.not_true, Bool.not_false, Bool.and_true, Bool.and_false,
        Bool.true_and, Bool.false_and] <;>
      simp <;> omega

theorem countP_excl_le (ms : List Member) (q : Member → Bool) (mid : Nat) :
    ms.countP (fun m => q m && m.id != mid) ≤ ms.countP q := by
  rw [countP_split ms q mid]
  exact Nat.le_add_right _ _

theorem map_updIf_ids (ms : List Member) (mid : Nat) (f : Member → Member)
    (hf : ∀ m, (f m).id = m.id) :
    (ms.map (updIf mid f)).map Member.id = ms.map Member.id := by
  induction ms with
  | nil => rfl
  | cons a t ih =>
    simp only [List.map_cons, List.cons.injEq]
    refine ⟨?_, ih⟩
    unfold updIf
    cases h : a.id == mid <;> simp [hf]

theorem map_updIf_of_absent (ms : List Member) (mid : Nat) (f : Member → Member)
    (h : ∀ m ∈ ms, m.id ≠ mid) : ms.map (updIf mid f) = ms := by
  induction ms with
  | nil => rfl
  | cons a t ih =>
    have ha : a.id ≠ mid := h a (List.mem_cons_self a t)
    simp only [List.map_cons]
    rw [ih (fun m hm => h m (List.mem_cons_of_mem a hm))]
    unfold updIf
    simp [ha]

theorem countP_hit_absent (ms : List Member) (mid : Nat) (q : Member → Bool)
    (h : ∀ m ∈ ms, m.id ≠ mid) :
    ms.countP (fun m => q m && m.id == mid) = 0 := by
  induction ms with
  | nil => rfl
  | cons a t ih =>
    have ha : a.id ≠ mid := h a (List.mem_cons_self a t)
    simp only [List.countP_cons]
    rw [ih (fun m hm => h m (List.mem_cons_of_mem a hm))]
    simp [ha]

theorem countP_map_updIf_excl (ms : List Member) (mid : Nat) (f : Member → Member)
    (hf : ∀ m, (f m).id = m.id) (q : Member → Bool) :
    (ms.map (updIf mid f)).countP (fun m => q m && m.id != mid) =
      ms.countP (fun m => q m && m.id != mid) := by
  induction ms with
  | nil => rfl
  | cons a t ih =>
    simp only [List.map_cons, List.countP_cons, ih]
    unfold updIf
    cases h : a.id == mid
    · simp
    · have ha : a.id = mid := by simpa using h
      have hfa : (f a).id = mid := by rw [hf a]; exact ha
      simp [ha, hfa]

theorem countP_map_updIf_hit (ms : List Member) (mid : Nat) (f : Member → Member)
    (hf : ∀ m, (f m).id = m.id) (hnd : (ms.map Member.id).Nodup)
    (member : Member) (hmem : member ∈ ms) (hid : member.id = mid) (q : Member → Bool) :
    (ms.map (updIf mid f)).countP (fun m => q m && m.id == mid) =
      (if q (f member) then 1 else 0) := by
  induction ms with
  | nil => cases hmem
  | cons a t ih =>
    simp only [List.map_cons, List.nodup_cons] at hnd
    rcases List.mem_cons.mp hmem with h | h
    · subst h
      have habsent : ∀ m ∈ t, m.id ≠ mid := by
        intro m hm hcontra
        apply hnd.1
        rw [hid, ← hcontra]
        exact List.mem_map_of_mem Member.id hm
      simp only [List.map_cons, List.countP_cons]
      rw [map_updIf_of_absent t mid f habsent, countP_hit_absent t mid q habsent]
      unfold updIf
      have hma : (member.id == mid) = true := by simp [hid]
      have hfid : ((f member).id == mid) = true := by rw [hf member]; exact hma
      simp [hma, hfid]
    · have ha : a.id ≠ mid := by
        intro hcontra
        apply hnd.1
        rw [hcontra, ← hid]
        exact List.mem_map_of_mem Member.id h
      simp only [List.map_cons, List.countP_cons]
      rw [ih hnd.2 h]
      unfold updIf
      simp [ha]

theorem countP_setMember (ms : List Member) (mid : Nat) (f : Member → Member)
    (hf : ∀ m, (f m).id = m.id) (hnd : (ms.map Member.id).Nodup)
    (member : Member) (hmem : member ∈ ms) (hid : member.id = mid) (q : Member → Bool) :
    (ms.map (updIf mid f)).countP q =
      ms.countP (fun m => q m && m.id != mid) + (if q (f member) then 1 else 0) := by
  rw [countP_split (ms.map (updIf mid f)) q mid,
      countP_map_updIf_excl ms mid f hf q,
      countP_map_updIf_hit ms mid f hf hnd member hmem hid q]

@[simp] theorem confirmedB_waiting : confirmedB MemberState.waiting = false := rfl

@[simp] theorem confirmedB_applied : confirmedB MemberState.applied = false := rfl

@[simp] theorem confirmedB_accepted : confirmedB MemberState.accepted = true := rfl

@[simp] theorem confirmedB_locked : confirmedB MemberState.locked = true := rfl

@[simp] theorem confirmedB_rejected : confirmedB MemberState.rejected = false := rfl

@[simp] theorem confirmedB_kicked : confirmedB MemberState.kicked = false := rfl

theorem countP_setMember_le (ms : List Member) (mid : Nat) (f : Member → Member)
    (hf : ∀ m, (f m).id = m.id) (hnd : (ms.map Member.id).Nodup)
    (member : Member) (hmem : member ∈ ms) (hid : member.id = mid) (q : Member → Bool)
    (hq : q (f member) = false) :
    (ms.map (updIf mid f)).countP q ≤ ms.countP q := by
  rw [countP_setMember ms mid f hf hnd member hmem hid q, hq]
  simp only [Bool.false_eq_true, if_false, Nat.add_zero]
  exact countP_excl_le ms q mid

theorem countP_append_one (ms : List Member) (m : Member) (q : Member → Bool) :
    (ms ++ [m]).countP q = ms.countP q + (if q m then 1 else 0) := by
  simp [List.countP_append, List.countP_cons]

theorem mem_id_unique {ms : List Member} (hnd : (ms.map Member.id).Nodup)
    {m1 m2 : Member} (h1 : m1 ∈ ms) (h2 : m2 ∈ ms) (h : m1.id = m2.id) : m1 = m2 :=
  List.inj_on_of_nodup_map hnd h1 h2 h

theorem findMember_spec {db : DB} {mid : Nat} {m : Member}
    (h : findMember db mid = some m) : m ∈ db.members ∧ m.id = mid := by
  unfold findMember at h
  refine ⟨List.mem_of_find?_eq_some h, ?_⟩
  have := List.find?_some h
  simpa using this

theorem findParty_spec {db : DB} {pid : Nat} {p : Party}
    (h : findParty db pid = some p) : p ∈ db.parties ∧ p.id = pid := by
  unfold findParty at h
  refine ⟨List.mem_of_find?_eq_some h, ?_⟩
  have := List.find?_some h
  simpa using this

theorem findSlot_spec {db : DB} {sid : Nat} {s : Slot}
    (h : findSlot db sid = some s) : s ∈ db.slots ∧ s.id = sid := by
  unfold findSlot at h
  refine ⟨List.mem_of_find?_eq_some h, ?_⟩
  have := List.find?_some h
  simpa using this

/-! ### The reachable-state invariant -/

/-- Facts maintained by every public operation starting from the empty
database: id discipline (fresh increasing primary keys), referential
integrity, capacity validation from party creation, and the two
capacity bounds of the spec (the slot bound only for positive limits;
see the C2 counterexample for ip_target = 0). -/
structure DBInv (db : DB) : Prop where
  nextPos : 0 < db.nextId
  partyIdsLt : ∀ p ∈ db.parties, p.id < db.nextId
  slotIdsLt : ∀ s ∈ db.slots, s.id < db.nextId
  memberIdsLt : ∀ m ∈ db.members, m.id < db.nextId
  slotIdsPos : ∀ s ∈ db.slots, 0 < s.id
  partyNodup : (db.parties.map Party.id).Nodup
  slotNodup : (db.slots.map Slot.id).Nodup
  memberNodup : (db.members.map Member.id).Nodup
  capPos : ∀ p ∈ db.parties, p.capacity ≠ some 0
  memberParty : ∀ m ∈ db.members, ∃ p ∈ db.parties, m.partyId = p.id
  memberSlot : ∀ m ∈ db.members, ∀ sid, m.slotId = some sid → ∃ s ∈ db.slots, sid = s.id
  partyCap : ∀ p ∈ db.parties, ∀ N, p.capacity = some N → confirmedCount db p.id ≤ N
  slotCap : ∀ s ∈ db.slots, ∀ K, s.ipTarget = some K → 1 ≤ K → slotConfirmedCount db s.id ≤ K

theorem inv_initDB : DBInv initDB := by
  constructor <;> simp [initDB, confirmedCount, slotConfirmedCount]

/-! ### Helper lemmas about the party-cache refresh -/

theorem setParty_members (db : DB) (pid : Nat) (f : Party → Party) :
    (setParty db pid f).members = db.members := rfl

theorem setParty_slots (db : DB) (pid : Nat) (f : Party → Party) :
    (setParty db pid f).slots = db.slots := rfl

theorem setParty_nextId (db : DB) (pid : Nat) (f : Party → Party) :
    (setParty db pid f).nextId = db.nextId := rfl

theorem map_updPartyIf_ids (ps : List Party) (pid : Nat) (f : Party → Party)
    (hf : ∀ p, (f p).id = p.id) :
    (ps.map (updPartyIf pid f)).map Party.id = ps.map Party.id := by
  induction ps with
  | nil => rfl
  | cons a t ih =>
    simp only [List.map_cons, List.cons.injEq]
    refine ⟨?_, ih⟩
    unfold updPartyIf
    cases h : a.id == pid <;> simp [hf]

theorem mem_map_updPartyIf {ps : List Party} {pid : Nat} {f : Party → Party} {p' : Party}
    (h : p' ∈ ps.map (updPartyIf pid f)) :
    ∃ p ∈ ps, p' = updPartyIf pid f p := by
  rcases List.mem_map.mp h with ⟨p, hp, he⟩
  exact ⟨p, hp, he.symm⟩

theorem updPartyIf_id (pid : Nat) (f : Party → Party) (hf : ∀ p, (f p).id = p.id)
    (p : Party) : (updPartyIf pid f p).id = p.id := by
  unfold updPartyIf
  cases h : p.id == pid <;> simp [hf]

theorem updPartyIf_capacity (pid : Nat) (f : Party → Party)
    (hf : ∀ p, (f p).capacity = p.capacity) (p : Party) :
    (updPartyIf pid f p).capacity = p.capacity := by
  unfold updPartyIf
  cases h : p.id == pid <;> simp [hf]

/-- A party update that keeps id and capacity (such as the openSlotCount
cache refresh) preserves the invariant. -/
theorem inv_setParty {db : DB} (h : DBInv db) (pid : Nat) (f : Party → Party)
    (hid : ∀ p, (f p).id = p.id) (hcap : ∀ p, (f p).capacity = p.capacity) :
    DBInv (setParty db pid f) := by
  constructor
  case nextPos => exact h.nextPos
  case partyIdsLt =>
    intro p' hp'
    rcases mem_map_updPartyIf hp' with ⟨p, hp, rfl⟩
    rw [setParty_nextId, updPartyIf_id _ _ hid]
    exact h.partyIdsLt p hp
  case slotIdsLt => exact h.slotIdsLt
  case memberIdsLt => exact h.memberIdsLt
  case slotIdsPos => exact h.slotIdsPos
  case partyNodup =>
    show ((db.parties.map (updPartyIf pid f)).map Party.id).Nodup
    rw [map_updPartyIf_ids _ _ _ hid]
    exact h.partyNodup
  case slotNodup => exact h.slotNodup
  case memberNodup => exact h.memberNodup
  case capPos =>
    intro p' hp'
    rcases mem_map_updPartyIf hp' with ⟨p, hp, rfl⟩
    rw [updPartyIf_capacity _ _ hcap]
    exact h.capPos p hp
  case memberParty =>
    intro m hm
    rcases h.memberParty m hm with ⟨p, hp, he⟩
    refine ⟨updPartyIf pid f p, List.mem_map_of_mem _ hp, ?_⟩
    rw [updPartyIf_id _ _ hid]
    exact he
  case memberSlot => exact h.memberSlot
  case partyCap =>
    intro p' hp' N hN
    rcases mem_map_updPartyIf hp' with ⟨p, hp, rfl⟩
    rw [updPartyIf_capacity _ _ hcap] at hN
    have he : confirmedCount (setParty db pid f) (updPartyIf pid f p).id =
        confirmedCount db p.id := by
      unfold confirmedCount
      rw [setParty_members, updPartyIf_id _ _ hid]
    rw [he]
    exact h.partyCap p hp N hN
  case slotCap =>
    intro s hs K hK hpos
    have he : slotConfirmedCount (setParty db pid f) s.id = slotConfirmedCount db s.id := by
      unfold slotConfirmedCount
      rw [setParty_members]
    rw [he]
    exact h.slotCap s hs K hK hpos

theorem inv_updateOpenSlotCount {db : DB} (h : DBInv db) (party : Party) (src : DB) :
    DBInv (setParty db party.id
      (fun q => { q with openSlotCount := calculateOpenSlotCount src q })) :=
  inv_setParty h party.id _ (fun _ => rfl) (fun _ => rfl)

theorem setMember_parties (db : DB) (mid : Nat) (f : Member → Member) :
    (setMember db mid f).parties = db.parties := rfl

theorem setMember_slots (db : DB) (mid : Nat) (f : Member → Member) :
    (setMember db mid f).slots = db.slots := rfl

theorem setMember_nextId (db : DB) (mid : Nat) (f : Member → Member) :
    (setMember db mid f).nextId = db.nextId := rfl

theorem nodup_map_append_fresh {α : Type} (f : α → Nat) (l : List α) (a : α) (n : Nat)
    (hnd : (l.map f).Nodup) (hlt : ∀ x ∈ l, f x < n) (ha : f a = n) :
    ((l ++ [a]).map f).Nodup := by
  rw [List.map_append, List.nodup_append]
  refine ⟨hnd, by simp, ?_⟩
  intro x hx hmem
  rcases List.mem_map.mp hx with ⟨y, hy, rfl⟩
  simp only [List.map_cons, List.map_nil, List.mem_singleton] at hmem
  have := hlt y hy
  omega

theorem validCapacity_ne_zero {oc : Option Nat} (h : validCapacity oc = true) :
    oc ≠ some 0 := by
  intro hc
  subst hc
  simp [validCapacity] at h

/-- No member can reference the fresh party id. -/
theorem confirmedCount_fresh {db : DB} (h : DBInv db) :
    confirmedCount db db.nextId = 0 := by
  unfold confirmedCount
  rw [List.countP_eq_zero]
  intro m hm
  rcases h.memberParty m hm with ⟨p, hp, he⟩
  have := h.partyIdsLt p hp
  simp only [Bool.and_eq_true, beq_iff_eq]
  rintro ⟨h1, -⟩
  omega

/-- No member can reference the fresh slot id. -/
theorem slotConfirmedCount_fresh {db : DB} (h : DBInv db) :
    slotConfirmedCount db db.nextId = 0 := by
  unfold slotConfirmedCount
  rw [List.countP_eq_zero]
  intro m hm
  simp only [Bool.and_eq_true, beq_iff_eq]
  rintro ⟨h1, -⟩
  rcases h.memberSlot m hm db.nextId h1 with ⟨s, hs, he⟩
  have := h.slotIdsLt s hs
  omega

theorem validateSlotRef_ok {db : DB} {pid : Nat} {sl : Option Nat}
    (h : validateSlotRef db pid sl = Except.ok ()) :
    ∀ sid, sl = some sid → ∃ s ∈ db.slots, sid = s.id := by
  intro sid hsl
  subst hsl
  cases hfs : findSlot db sid with
  | none => simp [validateSlotRef, hfs] at h
  | some slot =>
    rcases findSlot_spec hfs with ⟨hmem, hide⟩
    exact ⟨slot, hmem, hide.symm⟩

theorem inv_joinByCode {db : DB} (h : DBInv db) (payload : JoinByCode) :
    DBInv (joinByCode db payload).1 := by
  unfold joinByCode
  split <;> exact h

theorem inv_applyToParty {db : DB} (h : DBInv db) (partyId : Nat) (payload : MemberCreate) :
    DBInv (applyToParty db partyId payload).1 := by
  unfold applyToParty
  cases hfp : findParty db partyId with
  | none => exact h
  | some party =>
    simp only []
    split
    · exact h
    · cases hvs : validateSlotRef db partyId payload.slotId with
      | error e => exact h
      | ok u =>
        cases u
        simp only []
        rcases findParty_spec hfp with ⟨hpmem, hpid⟩
        have hcc : ∀ pid', ({ db with
            members := db.members ++ [newApplicant db partyId payload],
            nextId := db.nextId + 1 } : DB).members.countP
              (fun m => m.partyId == pid' && confirmedB m.state) =
            confirmedCount db pid' := by
          intro pid'
          show (db.members ++ [newApplicant db partyId payload]).countP _ = _
          rw [countP_append_one]
          simp [newApplicant, confirmedB, confirmedCount]
        have hsc : ∀ sid', ({ db with
            members := db.members ++ [newApplicant db partyId payload],
            nextId := db.nextId + 1 } : DB).members.countP
              (fun m => m.slotId == some sid' && confirmedB m.state) =
            slotConfirmedCount db sid' := by
          intro sid'
          show (db.members ++ [newApplicant db partyId payload]).countP _ = _
          rw [countP_append_one]
          simp [newApplicant, confirmedB, slotConfirmedCount]
        constructor
        case nextPos => exact Nat.lt_trans h.nextPos (Nat.lt_succ_self _)
        case partyIdsLt =>
          intro p hp
          exact Nat.lt_trans (h.partyIdsLt p hp) (Nat.lt_succ_self _)
        case slotIdsLt =>
          intro s hs
          exact Nat.lt_trans (h.slotIdsLt s hs) (Nat.lt_succ_self _)
        case memberIdsLt =>
          intro m hm
          rcases List.mem_append.mp hm with hm | hm
          · exact Nat.lt_trans (h.memberIdsLt m hm) (Nat.lt_succ_self _)
          · simp only [List.mem_singleton] at hm
            subst hm
            exact Nat.lt_succ_self _
        case slotIdsPos => exact h.slotIdsPos
        case partyNodup => exact h.partyNodup
        case slotNodup => exact h.slotNodup
        case memberNodup =>
          exact nodup_map_append_fresh Member.id db.members _ db.nextId h.memberNodup
            (h.memberIdsLt) rfl
        case capPos => exact h.capPos
        case memberParty =>
          intro m hm
          rcases List.mem_append.mp hm with hm | hm
          · exact h.memberParty m hm
          · simp only [List.mem_singleton] at hm
            subst hm
            exact ⟨party, hpmem, by simp [newApplicant, hpid]⟩
        case memberSlot =>
          intro m hm sid hsid
          rcases List.mem_append.mp hm with hm | hm
          · exact h.memberSlot m hm sid hsid
          · simp only [List.mem_singleton] at hm
            subst hm
            exact validateSlotRef_ok hvs sid hsid
        case partyCap =>
          intro p hp N hN
          unfold confirmedCount
          rw [hcc p.id]
          exact h.partyCap p hp N hN
        case slotCap =>
          intro s hs K hK hKpos
          unfold slotConfirmedCount
          rw [hsc s.id]
          exact h.slotCap s hs K hK hKpos

theorem inv_removeMember {db : DB} (h : DBInv db) (partyId memberId : Nat)
    (hostName : String) : DBInv (removeMember db partyId memberId hostName).1 := by
  unfold removeMember
  cases hfp : findParty db partyId with
  | none => exact h
  | some party =>
    simp only []
    split
    · exact h
    · cases hfm : findMember db memberId with
      | none => exact h
      | some member =>
        simp only []
        split
        · exact h
        · rcases findMember_spec hfm with ⟨hmmem, hmid⟩
          have hf : ∀ m : Member,
              ((fun (x : Member) => { x with state := MemberState.kicked, slotId := none }) m).id =
                m.id := fun _ => rfl
          have hcount : ∀ q : Member → Bool,
              (db.members.map (updIf memberId
                (fun m => { m with state := MemberState.kicked, slotId := none }))).countP q =
              db.members.countP (fun m => q m && m.id != memberId) +
                (if q { member with state := MemberState.kicked, slotId := none }
                 then 1 else 0) := by
            intro q
            exact countP_setMember db.members memberId _ hf h.memberNodup member hmmem hmid q
          constructor
          case nextPos => exact h.nextPos
          case partyIdsLt => exact h.partyIdsLt
          case slotIdsLt => exact h.slotIdsLt
          case memberIdsLt =>
            intro m hm
            rcases List.mem_map.mp hm with ⟨m0, hm0, rfl⟩
            unfold updIf
            split
            · exact h.memberIdsLt m0 hm0
            · exact h.memberIdsLt m0 hm0
          case slotIdsPos => exact h.slotIdsPos
          case partyNodup => exact h.partyNodup
          case slotNodup => exact h.slotNodup
          case memberNodup =>
            show ((db.members.map (updIf memberId _)).map Member.id).Nodup
            rw [map_updIf_ids db.members memberId _ hf]
            exact h.memberNodup
          case capPos => exact h.capPos
          case memberParty =>
            intro m hm
            rcases List.mem_map.mp hm with ⟨m0, hm0, rfl⟩
            unfold updIf
            split
            · exact h.memberParty m0 hm0
            · exact h.memberParty m0 hm0
          case memberSlot =>
            intro m hm sid hsid
            rcases List.mem_map.mp hm with ⟨m0, hm0, rfl⟩
            unfold updIf at hsid
            split at hsid
            · cases hsid
            · exact h.memberSlot m0 hm0 sid hsid
          case partyCap =>
            intro p hp N hN
            unfold confirmedCount
            show (db.members.map (updIf memberId _)).countP _ ≤ N
            refine le_trans
              (countP_setMember_le db.members memberId _ hf h.memberNodup member hmmem hmid _
                (by simp)) ?_
            exact h.partyCap p hp N hN
          case slotCap =>
            intro s hs K hK hKpos
            unfold slotConfirmedCount
            show (db.members.map (updIf memberId _)).countP _ ≤ K
            refine le_trans
              (countP_setMember_le db.members memberId _ hf h.memberNodup member hmmem hmid _
                (by simp)) ?_
            exact h.slotCap s hs K hK hKpos

theorem inv_createParty {db : DB} (h : DBInv db) (payload : PartyCreate) :
    DBInv (createParty db payload).1 := by
  unfold createParty
  split
  · exact h
  · rename_i hvalid
    have hvc : validCapacity payload.capacity = true := by
      cases hv : validCapacity payload.capacity
      · exact absurd hv hvalid
      · rfl
    have h1 : DBInv { db with parties := db.parties ++ [mkParty db payload], nextId := db.nextId + 1 } := by
      constructor
      case nextPos => exact Nat.lt_trans h.nextPos (Nat.lt_succ_self _)
      case partyIdsLt =>
        intro p hp
        rcases List.mem_append.mp hp with hp | hp
        · exact Nat.lt_trans (h.partyIdsLt p hp) (Nat.lt_succ_self _)
        · simp only [List.mem_singleton] at hp
          subst hp
          exact Nat.lt_succ_self _
      case slotIdsLt =>
        intro s hs
        exact Nat.lt_trans (h.slotIdsLt s hs) (Nat.lt_succ_self _)
      case memberIdsLt =>
        intro m hm
        exact Nat.lt_trans (h.memberIdsLt m hm) (Nat.lt_succ_self _)
      case slotIdsPos => exact h.slotIdsPos
      case partyNodup =>
        exact nodup_map_append_fresh Party.id db.parties _ db.nextId h.partyNodup
          h.partyIdsLt rfl
      case slotNodup => exact h.slotNodup
      case memberNodup => exact h.memberNodup
      case capPos =>
        intro p hp
        rcases List.mem_append.mp hp with hp | hp
        · exact h.capPos p hp
        · simp only [List.mem_singleton] at hp
          subst hp
          exact validCapacity_ne_zero hvc
      case memberParty =>
        intro m hm
        rcases h.memberParty m hm with ⟨p, hp, he⟩
        exact ⟨p, List.mem_append_left _ hp, he⟩
      case memberSlot => exact h.memberSlot
      case partyCap =>
        intro p hp N hN
        rcases List.mem_append.mp hp with hp | hp
        · exact h.partyCap p hp N hN
        · simp only [List.mem_singleton] at hp
          subst hp
          have hz : confirmedCount ({ db with
              parties := db.parties ++ [mkParty db payload],
              nextId := db.nextId + 1 } : DB) (mkParty db payload).id = 0 := by
            show db.members.countP _ = 0
            have := confirmedCount_fresh h
            unfold confirmedCount at this
            exact this
          rw [hz]
          exact Nat.zero_le N
      case slotCap =>
        intro s hs K hK hKpos
        exact h.slotCap s hs K hK hKpos
    exact inv_setParty h1 (mkParty db payload).id _ (fun _ => rfl) (fun _ => rfl)

theorem inv_createSlot {db : DB} (h : DBInv db) (partyId : Nat) (payload : SlotCreate)
    (hostId : String) : DBInv (createSlot db partyId payload hostId).1 := by
  unfold createSlot
  cases hfp : findParty db partyId with
  | none => exact h
  | some party =>
    simp only []
    split
    · exact h
    · split
      · exact h
      · have h1 : DBInv (insertSlot db partyId payload).1 := by
          constructor
          case nextPos => exact Nat.lt_trans h.nextPos (Nat.lt_succ_self _)
          case partyIdsLt =>
            intro p hp
            exact Nat.lt_trans (h.partyIdsLt p hp) (Nat.lt_succ_self _)
          case slotIdsLt =>
            intro s hs
            rcases List.mem_append.mp hs with hs | hs
            · exact Nat.lt_trans (h.slotIdsLt s hs) (Nat.lt_succ_self _)
            · simp only [List.mem_singleton] at hs
              subst hs
              exact Nat.lt_succ_self _
          case memberIdsLt =>
            intro m hm
            exact Nat.lt_trans (h.memberIdsLt m hm) (Nat.lt_succ_self _)
          case slotIdsPos =>
            intro s hs
            rcases List.mem_append.mp hs with hs | hs
            · exact h.slotIdsPos s hs
            · simp only [List.mem_singleton] at hs
              subst hs
              exact h.nextPos
          case partyNodup => exact h.partyNodup
          case slotNodup =>
            exact nodup_map_append_fresh Slot.id db.slots _ db.nextId h.slotNodup
              h.slotIdsLt rfl
          case memberNodup => exact h.memberNodup
          case capPos => exact h.capPos
          case memberParty => exact h.memberParty
          case memberSlot =>
            intro m hm sid hsid
            rcases h.memberSlot m hm sid hsid with ⟨s, hs, he⟩
            exact ⟨s, List.mem_append_left _ hs, he⟩
          case partyCap =>
            intro p hp N hN
            exact h.partyCap p hp N hN
          case slotCap =>
            intro s hs K hK hKpos
            rcases List.mem_append.mp hs with hs | hs
            · exact h.slotCap s hs K hK hKpos
            · simp only [List.mem_singleton] at hs
              subst hs
              have hz : slotConfirmedCount (insertSlot db partyId payload).1 db.nextId = 0 := by
                show db.members.countP _ = 0
                have := slotConfirmedCount_fresh h
                unfold slotConfirmedCount at this
                exact this
              show slotConfirmedCount (insertSlot db partyId payload).1 db.nextId ≤ K
              rw [hz]
              exact Nat.zero_le K
        exact inv_setParty h1 party.id _ (fun _ => rfl) (fun _ => rfl)

/-! ### Extracting facts from a passed capacity check -/

theorem capTruthy_pos {N : Nat} (h : N ≠ 0) : capTruthy (some N) = some N := by
  cases N with
  | zero => exact absurd rfl h
  | succ n => rfl

theorem ensureCapacity_party_lt {db : DB} {party : Party} {ts : Option Slot}
    {member : Member} {tstate : MemberState} {c : Nat}
    (h : ensureCapacityConstraints db party ts member tstate = Except.ok ())
    (hconf : confirmedB tstate = true) (hc : capTruthy party.capacity = some c) :
    confirmedCountExcl db party.id member.id < c := by
  unfold ensureCapacityConstraints at h
  rw [hconf, hc] at h
  simp only [if_true] at h
  by_cases hle : c ≤ confirmedCountExcl db party.id member.id
  · rw [if_pos hle] at h
    cases h
  · omega

theorem ensureCapacity_to_slot {db : DB} {party : Party} {ts : Option Slot}
    {member : Member} {tstate : MemberState}
    (h : ensureCapacityConstraints db party ts member tstate = Except.ok ())
    (hconf : confirmedB tstate = true) :
    ensureSlotCapacity db party ts member = Except.ok () := by
  unfold ensureCapacityConstraints at h
  rw [hconf] at h
  simp only [if_true] at h
  cases hc : capTruthy party.capacity with
  | none =>
    rw [hc] at h
    simp only [] at h
    exact h
  | some c =>
    rw [hc] at h
    simp only [] at h
    by_cases hle : c ≤ confirmedCountExcl db party.id member.id
    · rw [if_pos hle] at h
      cases h
    · rw [if_neg hle] at h
      exact h

theorem ensureSlotCapacity_lt {db : DB} {party : Party}
    {member : Member} {slot : Slot} {lim : Nat}
    (h : ensureSlotCapacity db party (some slot) member = Except.ok ())
    (hlim : slotLimit slot party = some lim) :
    slotConfirmedCountExcl db slot.id member.id < lim := by
  simp only [ensureSlotCapacity] at h
  rw [hlim] at h
  simp only [] at h
  by_cases hle : lim ≤ slotConfirmedCountExcl db slot.id member.id
  · rw [if_pos hle] at h
    cases h
  · omega

theorem ensureCapacity_slot_lt {db : DB} {party : Party}
    {member : Member} {tstate : MemberState} {slot : Slot} {lim : Nat}
    (h : ensureCapacityConstraints db party (some slot) member tstate = Except.ok ())
    (hconf : confirmedB tstate = true)
    (hlim : slotLimit slot party = some lim) :
    slotConfirmedCountExcl db slot.id member.id < lim :=
  ensureSlotCapacity_lt (ensureCapacity_to_slot h hconf) hlim

/-! ### Characterizing a successful slot move -/

theorem findSlot_setMember (db : DB) (mid : Nat) (f : Member → Member) (sid : Nat) :
    findSlot (setMember db mid f) sid = findSlot db sid := rfl

theorem moveMemberToSlot_ok {db : DB} {party : Party} {member : Member} {t : Nat}
    {tstate : MemberState} {work : DB} {member1 : Member}
    (h : moveMemberToSlot db party member t tstate = Except.ok (work, member1)) :
    (work = db ∧ member1 = member ∧ member.slotId = some t) ∨
    (∃ slot, findSlot db t = some slot ∧ slot.partyId = party.id ∧
      member.slotId ≠ some slot.id ∧
      ensureCapacityConstraints db party (some slot) member tstate = Except.ok () ∧
      work = setMember db member.id (fun m => { m with slotId := some slot.id }) ∧
      member1 = { member with slotId := some slot.id }) := by
  unfold moveMemberToSlot at h
  split at h
  · cases h
  · cases hfs : findSlot db t with
    | none => rw [hfs] at h; cases h
    | some slot =>
      rw [hfs] at h
      simp only [] at h
      by_cases hsp : slot.partyId ≠ party.id
      · rw [if_pos hsp] at h
        cases h
      · rw [if_neg hsp] at h
        by_cases hnoop : member.slotId = some slot.id
        · rw [if_pos hnoop] at h
          injection h with h1
          injection h1 with hw hm
          left
          rcases findSlot_spec hfs with ⟨-, hsid⟩
          rw [← hw, ← hm]
          exact ⟨rfl, rfl, by rw [hnoop, hsid]⟩
        · rw [if_neg hnoop] at h
          split at h
          · cases h
          · cases hec : ensureCapacityConstraints db party (some slot) member tstate with
            | error e => rw [hec] at h; cases h
            | ok u =>
              cases u
              rw [hec] at h
              injection h with h1
              injection h1 with hw hm
              right
              refine ⟨slot, rfl, not_not.mp hsp, hnoop, hec, hw.symm, hm.symm⟩

theorem moveIfRequested_spec {db : DB} {party : Party} {member : Member}
    {payload : StateUpdate} {work : DB} {member1 : Member} {ts : Option Slot}
    (h : moveIfRequested db party member payload = Except.ok (work, member1, ts)) :
    (work = db ∧ member1 = member ∧ ts = resolveCurrentSlot db member) ∨
    (∃ t slot, payload.slotId = some t ∧ member.slotId ≠ some t ∧
      findSlot db t = some slot ∧ slot.partyId = party.id ∧
      ensureCapacityConstraints db party (some slot) member payload.state = Except.ok () ∧
      work = setMember db member.id (fun m => { m with slotId := some slot.id }) ∧
      member1 = { member with slotId := some slot.id } ∧ ts = findSlot db t) := by
  unfold moveIfRequested at h
  cases hps : payload.slotId with
  | none =>
    rw [hps] at h
    injection h with h1
    injection h1 with hw h2
    injection h2 with hm hts
    exact Or.inl ⟨hw.symm, hm.symm, hts.symm⟩
  | some t =>
    rw [hps] at h
    simp only [] at h
    by_cases hne : member.slotId = some t
    · rw [if_pos hne] at h
      injection h with h1
      injection h1 with hw h2
      injection h2 with hm hts
      exact Or.inl ⟨hw.symm, hm.symm, hts.symm⟩
    · rw [if_neg hne] at h
      cases hmv : moveMemberToSlot db party member t payload.state with
      | error e => rw [hmv] at h; cases h
      | ok res =>
        obtain ⟨w, m1⟩ := res
        rw [hmv] at h
        simp only [] at h
        injection h with h1
        injection h1 with hw h2
        injection h2 with hm hts
        rcases moveMemberToSlot_ok hmv with ⟨hwd, hmd, hcontra⟩ | hmove
        · exact absurd hcontra hne
        · rcases hmove with ⟨slot, hfs, hsp, hnoop, hec, hwd, hmd⟩
          right
          refine ⟨t, slot, rfl, hne, hfs, hsp, hec, ?_, ?_, ?_⟩
          · rw [← hw, hwd]
          · rw [← hm, hmd]
          · rw [← hts, hwd]
            rfl

theorem findSlot_of_mem {db : DB} (h : DBInv db) {s : Slot} (hs : s ∈ db.slots) :
    findSlot db s.id = some s := by
  cases hfs : findSlot db s.id with
  | none =>
    exfalso
    have hnone := List.find?_eq_none.mp hfs s hs
    simp at hnone
  | some s2 =>
    rcases findSlot_spec hfs with ⟨hm2, hid2⟩
    rw [List.inj_on_of_nodup_map h.slotNodup hm2 hs hid2]

theorem findParty_unique {db : DB} {pid : Nat} {party p : Party} (h : DBInv db)
    (hf : findParty db pid = some party) (hp : p ∈ db.parties) (hid : p.id = pid) :
    p = party := by
  rcases findParty_spec hf with ⟨hpm, hpid⟩
  exact List.inj_on_of_nodup_map h.partyNodup hp hpm (by rw [hid, hpid])

theorem findSlot_unique {db : DB} {sid : Nat} {slot s : Slot} (h : DBInv db)
    (hf : findSlot db sid = some slot) (hs : s ∈ db.slots) (hid : s.id = sid) :
    s = slot := by
  rcases findSlot_spec hf with ⟨hsm, hsid⟩
  exact List.inj_on_of_nodup_map h.slotNodup hs hsm (by rw [hid, hsid])

/-- The common final step of update_member_state: writing the target state
into the (possibly slot-reassigned) working database and committing keeps
the invariant, given that the passed capacity check bounds the counts that
the final member actually contributes to. -/
theorem inv_finalize {db work : DB} (h : DBInv db) {party : Party}
    {partyId memberId : Nat} (payload : StateUpdate) {member1 : Member}
    (hwp : work.parties = db.parties) (hws : work.slots = db.slots)
    (hwn : work.nextId = db.nextId)
    (hm1mem : member1 ∈ work.members) (hm1id : member1.id = memberId)
    (hm1pid : member1.partyId = partyId)
    (hfp : findParty db partyId = some party)
    (hidsW : work.members.map Member.id = db.members.map Member.id)
    (hexcl : ∀ q : Member → Bool, work.members.countP (fun m => q m && m.id != memberId) =
      db.members.countP (fun m => q m && m.id != memberId))
    (hmemok : ∀ m ∈ work.members, m.id < db.nextId ∧
      (∃ p ∈ db.parties, m.partyId = p.id) ∧
      (∀ sid, m.slotId = some sid → ∃ s ∈ db.slots, sid = s.id))
    (hpartyB : confirmedB payload.state = true →
      ∀ c, capTruthy party.capacity = some c →
        confirmedCountExcl work partyId memberId < c)
    (hslotB : confirmedB payload.state = true →
      ∀ s ∈ db.slots, ∀ K, s.ipTarget = some K → 1 ≤ K → member1.slotId = some s.id →
        slotConfirmedCountExcl work s.id memberId < K) :
    DBInv (setMember work memberId (fun m => { m with state := payload.state })) := by
  have hfid : ∀ m : Member,
      ((fun (x : Member) => { x with state := payload.state }) m).id = m.id := fun _ => rfl
  have hnodW : (work.members.map Member.id).Nodup := by
    rw [hidsW]
    exact h.memberNodup
  have hcountP : ∀ pid' : Nat,
      (work.members.map (updIf memberId (fun (x : Member) =>
        { x with state := payload.state }))).countP
          (fun m => m.partyId == pid' && confirmedB m.state) =
      db.members.countP (fun m =>
        (m.partyId == pid' && confirmedB m.state) && m.id != memberId) +
        (if member1.partyId == pid' && confirmedB payload.state then 1 else 0) := by
    intro pid'
    rw [countP_setMember work.members memberId _ hfid hnodW member1 hm1mem hm1id]
    rw [hexcl]
  have hcountS : ∀ sid' : Nat,
      (work.members.map (updIf memberId (fun (x : Member) =>
        { x with state := payload.state }))).countP
          (fun m => m.slotId == some sid' && confirmedB m.state) =
      db.members.countP (fun m =>
        (m.slotId == some sid' && confirmedB m.state) && m.id != memberId) +
        (if member1.slotId == some sid' && confirmedB payload.state then 1 else 0) := by
    intro sid'
    rw [countP_setMember work.members memberId _ hfid hnodW member1 hm1mem hm1id]
    rw [hexcl]
  constructor
  case nextPos =>
    show 0 < work.nextId
    rw [hwn]
    exact h.nextPos
  case partyIdsLt =>
    intro p hp
    rw [setMember_parties, hwp] at hp
    show p.id < work.nextId
    rw [hwn]
    exact h.partyIdsLt p hp
  case slotIdsLt =>
    intro s hs
    rw [setMember_slots, hws] at hs
    show s.id < work.nextId
    rw [hwn]
    exact h.slotIdsLt s hs
  case memberIdsLt =>
    intro m hm
    rcases List.mem_map.mp hm with ⟨m0, hm0, rfl⟩
    show (updIf memberId _ m0).id < work.nextId
    unfold updIf
    rw [hwn]
    split
    · exact (hmemok m0 hm0).1
    · exact (hmemok m0 hm0).1
  case slotIdsPos =>
    intro s hs
    rw [setMember_slots, hws] at hs
    exact h.slotIdsPos s hs
  case partyNodup =>
    show ((work.parties).map Party.id).Nodup
    rw [hwp]
    exact h.partyNodup
  case slotNodup =>
    show ((work.slots).map Slot.id).Nodup
    rw [hws]
    exact h.slotNodup
  case memberNodup =>
    show ((work.members.map (updIf memberId _)).map Member.id).Nodup
    rw [map_updIf_ids work.members memberId _ hfid, hidsW]
    exact h.memberNodup
  case capPos =>
    intro p hp
    rw [setMember_parties, hwp] at hp
    exact h.capPos p hp
  case memberParty =>
    intro m hm
    rcases List.mem_map.mp hm with ⟨m0, hm0, rfl⟩
    rcases (hmemok m0 hm0).2.1 with ⟨p, hp, he⟩
    refine ⟨p, ?_, ?_⟩
    · rw [setMember_parties, hwp]
      exact hp
    · show (updIf memberId _ m0).partyId = p.id
      unfold updIf
      split
      · exact he
      · exact he
  case memberSlot =>
    intro m hm sid hsid
    rcases List.mem_map.mp hm with ⟨m0, hm0, rfl⟩
    have hslot0 : m0.slotId = some sid := by
      revert hsid
      show (updIf memberId _ m0).slotId = some sid → m0.slotId = some sid
      unfold updIf
      split
      · exact fun hx => hx
      · exact fun hx => hx
    rcases (hmemok m0 hm0).2.2 sid hslot0 with ⟨s, hs, he⟩
    refine ⟨s, ?_, he⟩
    rw [setMember_slots, hws]
    exact hs
  case partyCap =>
    intro p hp N hN
    rw [setMember_parties, hwp] at hp
    show (work.members.map (updIf memberId _)).countP _ ≤ N
    rw [hcountP p.id]
    cases hqc : (member1.partyId == p.id && confirmedB payload.state) with
    | false =>
      simp only [Bool.false_eq_true, if_false, Nat.add_zero]
      calc db.members.countP _ ≤ confirmedCount db p.id := countP_excl_le _ _ _
        _ ≤ N := h.partyCap p hp N hN
    | true =>
      simp only [if_true]
      have hqc2 : member1.partyId = p.id ∧ confirmedB payload.state = true := by
        have := hqc
        simp only [Bool.and_eq_true, beq_iff_eq] at this
        exact this
      have hpidp : p.id = partyId := by rw [← hqc2.1, hm1pid]
      have hpp : p = party := findParty_unique h hfp hp hpidp
      have hNpos : N ≠ 0 := by
        intro hz
        subst hz
        exact h.capPos p hp hN
      have hct : capTruthy party.capacity = some N := by
        rw [← hpp, hN]
        exact capTruthy_pos hNpos
      have hlt := hpartyB hqc2.2 N hct
      have heq : confirmedCountExcl work partyId memberId =
          db.members.countP (fun m =>
            (m.partyId == p.id && confirmedB m.state) && m.id != memberId) := by
        unfold confirmedCountExcl
        rw [hexcl (fun m => m.partyId == partyId && confirmedB m.state), hpidp]
      rw [heq] at hlt
      omega
  case slotCap =>
    intro s hs K hK hKpos
    rw [setMember_slots, hws] at hs
    show (work.members.map (updIf memberId _)).countP _ ≤ K
    rw [hcountS s.id]
    cases hqc : (member1.slotId == some s.id && confirmedB payload.state) with
    | false =>
      simp only [Bool.false_eq_true, if_false, Nat.add_zero]
      calc db.members.countP _ ≤ slotConfirmedCount db s.id := countP_excl_le _ _ _
        _ ≤ K := h.slotCap s hs K hK hKpos
    | true =>
      simp only [if_true]
      have hqc2 : member1.slotId = some s.id ∧ confirmedB payload.state = true := by
        have := hqc
        simp only [Bool.and_eq_true, beq_iff_eq] at this
        exact this
      have hlt := hslotB hqc2.2 s hs K hK hKpos hqc2.1
      have heq : slotConfirmedCountExcl work s.id memberId =
          db.members.countP (fun m =>
            (m.slotId == some s.id && confirmedB m.state) && m.id != memberId) := by
        unfold slotConfirmedCountExcl
        rw [hexcl (fun m => m.slotId == some s.id && confirmedB m.state)]
      rw [heq] at hlt
      omega

theorem inv_updateMemberState {db : DB} (h : DBInv db) (partyId memberId : Nat)
    (payload : StateUpdate) (hostId : String) :
    DBInv (updateMemberState db partyId memberId payload hostId).1 := by
  unfold updateMemberState
  cases hfp : findParty db partyId with
  | none => exact h
  | some party =>
    simp only []
    split
    · exact h
    · cases hfm : findMember db memberId with
      | none => exact h
      | some member =>
        simp only []
        split
        · exact h
        · rename_i hhost hmp0
          have hmp : member.partyId = partyId := not_not.mp hmp0
          cases hmv : moveIfRequested db party member payload with
          | error e => exact h
          | ok res =>
            obtain ⟨work, member1, ts⟩ := res
            simp only []
            cases hec : ensureCapacityConstraints work party ts member1 payload.state with
            | error e => exact h
            | ok u =>
              cases u
              simp only []
              rcases findParty_spec hfp with ⟨hpmem, hpid⟩
              rcases findMember_spec hfm with ⟨hmmem, hmid⟩
              subst hpid
              subst hmid
              rcases moveIfRequested_spec hmv with ⟨hw, hm1, hts⟩ |
                ⟨t, slot, hpt, hne, hfs, hsp, hecm, hw, hm1, hts⟩
              · subst hw
                subst hm1
                refine inv_finalize h payload rfl rfl rfl hmmem rfl hmp hfp rfl
                  (fun q => rfl) ?_ ?_ ?_
                · intro m hm
                  exact ⟨h.memberIdsLt m hm, h.memberParty m hm, h.memberSlot m hm⟩
                · intro hconf c hc
                  exact ensureCapacity_party_lt hec hconf hc
                · intro hconf s hs K hK hKpos hsl
                  have hspos := h.slotIdsPos s hs
                  have hts2 : ts = some s := by
                    rw [hts]
                    simp only [resolveCurrentSlot, hsl]
                    rw [if_neg (show ¬ s.id = 0 by omega)]
                    exact findSlot_of_mem h hs
                  rw [hts2] at hec
                  have hlim : slotLimit s party = some K := by
                    unfold slotLimit
                    rw [hK, capTruthy_pos (by omega)]
                  exact ensureCapacity_slot_lt hec hconf hlim
              · subst hw
                subst hm1
                rcases findSlot_spec hfs with ⟨hsmem, hsid⟩
                have hupd : updIf member.id
                    (fun m => { m with slotId := some slot.id }) member =
                    { member with slotId := some slot.id } := by
                  unfold updIf
                  simp
                refine @inv_finalize db
                  (setMember db member.id (fun m => { m with slotId := some slot.id }))
                  h party party.id member.id payload
                  { member with slotId := some slot.id }
                  rfl rfl rfl ?_ rfl hmp hfp ?_ ?_ ?_ ?_ ?_
                · show ({ member with slotId := some slot.id } : Member) ∈
                    db.members.map (updIf member.id (fun m => { m with slotId := some slot.id }))
                  exact List.mem_map.mpr ⟨member, hmmem, hupd⟩
                · show (db.members.map (updIf member.id
                      (fun m => { m with slotId := some slot.id }))).map Member.id =
                    db.members.map Member.id
                  exact map_updIf_ids db.members member.id _ (fun _ => rfl)
                · intro q
                  show (db.members.map (updIf member.id
                      (fun m => { m with slotId := some slot.id }))).countP _ =
                    db.members.countP _
                  exact countP_map_updIf_excl db.members member.id
                    (fun m => { m with slotId := some slot.id }) (fun _ => rfl) q
                · intro m hm
                  rcases List.mem_map.mp hm with ⟨m0, hm0, rfl⟩
                  unfold updIf
                  split
                  · refine ⟨h.memberIdsLt m0 hm0, h.memberParty m0 hm0, ?_⟩
                    intro sid hsid2
                    have hsid3 : some slot.id = some sid := hsid2
                    injection hsid3 with hsid3
                    exact ⟨slot, hsmem, hsid3.symm⟩
                  · exact ⟨h.memberIdsLt m0 hm0, h.memberParty m0 hm0, h.memberSlot m0 hm0⟩
                · intro hconf c hc
                  exact ensureCapacity_party_lt hec hconf hc
                · intro hconf s hs K hK hKpos hsl
                  have hss : some slot.id = some s.id := hsl
                  injection hss with hss
                  have hseq : s = slot :=
                    List.inj_on_of_nodup_map h.slotNodup hs hsmem hss.symm
                  subst hseq
                  rw [hts, hfs] at hec
                  have hlim : slotLimit s party = some K := by
                    unfold slotLimit
                    rw [hK, capTruthy_pos (by omega)]
                  exact ensureCapacity_slot_lt hec hconf hlim

theorem inv_step {db : DB} (h : DBInv db) (op : Op) : DBInv (step db op) := by
  cases op with
  | createParty payload => exact inv_createParty h payload
  | createSlot partyId payload hostId => exact inv_createSlot h partyId payload hostId
  | applyToParty partyId payload => exact inv_applyToParty h partyId payload
  | joinByCode payload => exact inv_joinByCode h payload
  | updateMemberState partyId memberId payload hostId =>
      exact inv_updateMemberState h partyId memberId payload hostId
  | removeMember partyId memberId hostName => exact inv_removeMember h partyId memberId hostName

theorem inv_runOps (ops : List Op) : DBInv (runOps ops) := by
  unfold runOps
  suffices hgen : ∀ db, DBInv db → DBInv (ops.foldl step db) from hgen initDB inv_initDB
  induction ops with
  | nil => exact fun db hdb => hdb
  | cons op t ih => exact fun db hdb => ih (step db op) (inv_step hdb op)

/-! ### Claim C1 -/

/-- C1: for every party whose capacity is set to N, after any sequence of
the public operations (apply/join creating APPLIED members,
update_member_state transitions, slot reassignments, remove_member kicks)
the number of that party's members in state ACCEPTED or LOCKED is at most
N. -/
theorem c1_party_capacity_invariant (ops : List Op) (p : Party)
    (hp : p ∈ (runOps ops).parties) (N : Nat) (hN : p.capacity = some N) :
    confirmedCount (runOps ops) p.id ≤ N :=
  (inv_runOps ops).partyCap p hp N hN

def c1ops : List Op :=
  [Op.createParty { title := "t", visibility := PartyVisibility.pub, capacity := some 2,
                    hostId := "h", hostName := "hn", inviteCode := none },
   Op.applyToParty 1 { applicantName := "a", slotId := none },
   Op.applyToParty 1 { applicantName := "b", slotId := none },
   Op.applyToParty 1 { applicantName := "c", slotId := none },
   Op.updateMemberState 1 2 { state := MemberState.accepted, slotId := none } "h",
   Op.updateMemberState 1 3 { state := MemberState.accepted, slotId := none } "h",
   Op.updateMemberState 1 4 { state := MemberState.accepted, slotId := none } "h"]

def c1party : Party :=
  { id := 1, title := "t", visibility := PartyVisibility.pub, capacity := some 2,
    openSlotCount := some 2, hostId := "h", hostName := "hn", inviteCode := none }

theorem c1_party_capacity_invariant_witness :
    c1party ∈ (runOps c1ops).parties ∧ c1party.capacity = some 2 ∧
      confirmedCount (runOps c1ops) c1party.id ≤ 2 :=
  ⟨by decide, by decide,
   c1_party_capacity_invariant c1ops c1party (by decide) 2 (by decide)⟩

/-! ### Claim C2 -/

def c2ops : List Op :=
  [Op.createParty { title := "t", visibility := PartyVisibility.pub, capacity := none,
                    hostId := "h", hostName := "hn", inviteCode := none },
   Op.createSlot 1 { role := "dps", ipTarget := some 0 } "h",
   Op.applyToParty 1 { applicantName := "a", slotId := some 2 },
   Op.updateMemberState 1 3 { state := MemberState.accepted, slotId := none } "h"]

/-- C2 counterexample: the claim fails for ip_target = 0.  The slot limit
is truthiness-tested (`slot.ip_target or party.capacity`, main.py:160), so
a slot with ip_target = 0 is treated as having no per-slot limit: after a
reachable sequence of operations a slot with ip_target = 0 holds one
ACCEPTED member, exceeding K = 0. -/
theorem c2_slot_capacity_counterexample :
    (findSlot (runOps c2ops) 2).map Slot.ipTarget = some (some 0) ∧
    slotConfirmedCount (runOps c2ops) 2 = 1 := by decide

/-- C2 (amended): for every slot whose ip_target is set to K with K ≥ 1,
after any sequence of transitions and slot reassignments the number of
members assigned to that slot in state ACCEPTED or LOCKED never exceeds K;
a slot with ip_target = 0 instead falls back to the party capacity (or no
limit at all) because 0 is falsy in the limit computation. -/
theorem c2_slot_capacity_invariant (ops : List Op) (s : Slot)
    (hs : s ∈ (runOps ops).slots) (K : Nat) (hK : s.ipTarget = some K)
    (hKpos : 1 ≤ K) : slotConfirmedCount (runOps ops) s.id ≤ K :=
  (inv_runOps ops).slotCap s hs K hK hKpos

def c2wops : List Op :=
  [Op.createParty { title := "t", visibility := PartyVisibility.pub, capacity := none,
                    hostId := "h", hostName := "hn", inviteCode := none },
   Op.createSlot 1 { role := "dps", ipTarget := some 1 } "h",
   Op.applyToParty 1 { applicantName := "a", slotId := some 2 },
   Op.applyToParty 1 { applicantName := "b", slotId := some 2 },
   Op.updateMemberState 1 3 { state := MemberState.accepted, slotId := none } "h",
   Op.updateMemberState 1 4 { state := MemberState.accepted, slotId := none } "h"]

def c2slot : Slot := { id := 2, partyId := 1, role := "dps", ipTarget := some 1 }

theorem c2_slot_capacity_invariant_witness :
    c2slot ∈ (runOps c2wops).slots ∧ c2slot.ipTarget = some 1 ∧ 1 ≤ 1 ∧
      slotConfirmedCount (runOps c2wops) c2slot.id ≤ 1 :=
  ⟨by decide, by decide, by decide,
   c2_slot_capacity_invariant c2wops c2slot (by decide) 1 (by decide) (by decide)⟩

/-! ### Claim C3 -/

/-- C3: if update_member_state fails with any validation error (party,
member or slot not found, permission denied, invalid state for move, party
or slot capacity exceeded), no mutation is committed: the persisted
database — in particular the member's state and slot_id — equals its value
before the call.  All checks run before the single commit, and the nested
slot move is invoked with commit=False. -/
theorem c3_update_failure_atomic (db : DB) (partyId memberId : Nat)
    (payload : StateUpdate) (hostId : String) (e : Err)
    (h : (updateMemberState db partyId memberId payload hostId).2 = Except.error e) :
    (updateMemberState db partyId memberId payload hostId).1 = db ∧
    findMember (updateMemberState db partyId memberId payload hostId).1 memberId =
      findMember db memberId := by
  revert h
  unfold updateMemberState
  split
  · intro h
    exact ⟨rfl, rfl⟩
  · split
    · intro h
      exact ⟨rfl, rfl⟩
    · split
      · intro h
        exact ⟨rfl, rfl⟩
      · split
        · intro h
          exact ⟨rfl, rfl⟩
        · split
          · intro h
            exact ⟨rfl, rfl⟩
          · split
            · intro h
              exact ⟨rfl, rfl⟩
            · intro h
              exact absurd h (by simp)

def c3ops : List Op :=
  [Op.createParty { title := "t", visibility := PartyVisibility.pub, capacity := some 2,
                    hostId := "h", hostName := "hn", inviteCode := none },
   Op.applyToParty 1 { applicantName := "a", slotId := none },
   Op.applyToParty 1 { applicantName := "b", slotId := none },
   Op.applyToParty 1 { applicantName := "c", slotId := none },
   Op.updateMemberState 1 2 { state := MemberState.accepted, slotId := none } "h",
   Op.updateMemberState 1 3 { state := MemberState.accepted, slotId := none } "h"]

def c3db : DB := runOps c3ops

theorem c3_update_failure_atomic_witness :
    (updateMemberState c3db 1 4
        { state := MemberState.accepted, slotId := none } "h").2 =
      Except.error Err.capacityExceeded ∧
    (updateMemberState c3db 1 4
        { state := MemberState.accepted, slotId := none } "h").1 = c3db :=
  ⟨by decide,
   (c3_update_failure_atomic c3db 1 4 { state := MemberState.accepted, slotId := none }
     "h" Err.capacityExceeded (by decide)).1⟩

/-! ### Claim C4 -/

def c4party : Party :=
  { id := 1, title := "t", visibility := PartyVisibility.pub, capacity := none,
    openSlotCount := none, hostId := "h", hostName := "hn", inviteCode := none }

def c4member : Member :=
  { id := 9, partyId := 1, slotId := some 5, applicantName := "a",
    state := MemberState.locked }

def c4db : DB :=
  { parties := [c4party],
    slots := [{ id := 5, partyId := 1, role := "r", ipTarget := some 1 }],
    members := [c4member], messages := [], nextId := 10 }

/-- C4 counterexample: moving a LOCKED member to its own current slot does
not fail with InvalidStateForMove — the no-op check (main.py:188) runs
before the frozen-state check (main.py:191), so the call succeeds and
returns the member unchanged. -/
theorem c4_current_slot_counterexample :
    c4member.state = MemberState.locked ∧ c4member.slotId = some 5 ∧
    moveMemberToSlot c4db c4party c4member 5 MemberState.locked =
      Except.ok (c4db, c4member) := by decide

/-- C4 (amended): moving a LOCKED or REJECTED member to any slot other than
its current one fails with InvalidStateForMove regardless of that slot's
capacity; targeting the member's current slot instead succeeds as a no-op
that changes nothing. -/
theorem c4_frozen_member_moves (db : DB) (party : Party) (member : Member)
    (t : Nat) (tstate : MemberState) (slot : Slot)
    (hmp : member.partyId = party.id)
    (hfs : findSlot db t = some slot) (hsp : slot.partyId = party.id)
    (hfrozen : member.state = MemberState.locked ∨ member.state = MemberState.rejected) :
    (member.slotId ≠ some slot.id →
      moveMemberToSlot db party member t tstate = Except.error Err.invalidStateForMove) ∧
    (member.slotId = some slot.id →
      moveMemberToSlot db party member t tstate = Except.ok (db, member)) := by
  constructor
  · intro hne
    unfold moveMemberToSlot
    rw [if_neg (not_not_intro hmp), hfs]
    simp only []
    rw [if_neg (not_not_intro hsp), if_neg hne, if_pos hfrozen]
  · intro heq
    unfold moveMemberToSlot
    rw [if_neg (not_not_intro hmp), hfs]
    simp only []
    rw [if_neg (not_not_intro hsp), if_pos heq]

def c4member2 : Member :=
  { id := 9, partyId := 1, slotId := some 5, applicantName := "a",
    state := MemberState.rejected }

def c4db2 : DB :=
  { parties := [c4party],
    slots := [{ id := 5, partyId := 1, role := "r", ipTarget := some 1 },
              { id := 6, partyId := 1, role := "r2", ipTarget := none }],
    members := [c4member2], messages := [], nextId := 10 }

theorem c4_frozen_member_moves_witness :
    moveMemberToSlot c4db2 c4party c4member2 6 MemberState.rejected =
      Except.error Err.invalidStateForMove :=
  (c4_frozen_member_moves c4db2 c4party c4member2 6 MemberState.rejected
    { id := 6, partyId := 1, role := "r2", ipTarget := none }
    (by decide) (by decide) (by decide) (by decide)).1 (by decide)

/-! ### Claim C5 -/

theorem map_updIf_id_eq (ms : List Member) (mid : Nat) (f : Member → Member)
    (h : ∀ m ∈ ms, m.id = mid → f m = m) : ms.map (updIf mid f) = ms := by
  induction ms with
  | nil => rfl
  | cons a t ih =>
    simp only [List.map_cons]
    rw [ih (fun m hm => h m (List.mem_cons_of_mem a hm))]
    unfold updIf
    cases hid : a.id == mid
    · simp
    · simp [h a (List.mem_cons_self a t) (by simpa using hid)]

theorem countP_excl_lt_of_mem (ms : List Member) (q : Member → Bool) (mid : Nat)
    (member : Member) (hmem : member ∈ ms) (hid : member.id = mid)
    (hq : q member = true) :
    ms.countP (fun m => q m && m.id != mid) < ms.countP q := by
  rw [countP_split ms q mid]
  have hpos : 0 < ms.countP (fun m => q m && m.id == mid) := by
    rw [List.countP_pos_iff]
    exact ⟨member, hmem, by simp [hq, hid]⟩
  omega

def c5db : DB :=
  { parties := [{ id := 1, title := "t", visibility := PartyVisibility.pub,
                  capacity := some 1, openSlotCount := none, hostId := "h",
                  hostName := "hn", inviteCode := none }],
    slots := [],
    members := [{ id := 2, partyId := 1, slotId := none, applicantName := "a",
                  state := MemberState.accepted },
                { id := 3, partyId := 1, slotId := none, applicantName := "b",
                  state := MemberState.accepted }],
    messages := [], nextId := 4 }

/-- C5 counterexample: a self-transition is not exempt from the capacity
check.  On a database whose confirmed count (2) is strictly above the
party's capacity (1), re-submitting a member's current ACCEPTED state fails
with CapacityExceeded instead of succeeding as a no-op — contradicting the
claim that the member is returned unchanged whenever the count is at or
above the limit. -/
theorem c5_selftransition_counterexample :
    (findMember c5db 2).map Member.state = some MemberState.accepted ∧
    (findParty c5db 1).map Party.capacity = some (some 1) ∧
    confirmedCount c5db 1 = 2 ∧
    (updateMemberState c5db 1 2
        { state := MemberState.accepted, slotId := none } "h").2 =
      Except.error Err.capacityExceeded := by decide

/-- C5 (amended): a transition whose target state equals the member's
current state (and whose target slot, if given, equals the member's current
slot) still re-runs the capacity check, but with the member itself excluded
from the counts; it therefore succeeds and leaves the database unchanged in
every state where the confirmed counts including the member are within the
limits — in particular in all reachable states, where counts never sit
above the limit — and only an over-full state makes it fail. -/
theorem c5_selftransition_noop (db : DB) (partyId memberId : Nat)
    (payload : StateUpdate) (hostId : String) (party : Party) (member : Member)
    (hnd : (db.members.map Member.id).Nodup)
    (hfp : findParty db partyId = some party) (hhost : party.hostId = hostId)
    (hfm : findMember db memberId = some member) (hmp : member.partyId = partyId)
    (hstate : payload.state = member.state)
    (hslot : payload.slotId = none ∨ payload.slotId = member.slotId)
    (hcapB : ∀ c, capTruthy party.capacity = some c → confirmedCount db partyId ≤ c)
    (hslotB : ∀ sid slot lim, member.slotId = some sid → findSlot db sid = some slot →
      slotLimit slot party = some lim → slotConfirmedCount db sid ≤ lim) :
    (updateMemberState db partyId memberId payload hostId).2 = Except.ok member ∧
    (updateMemberState db partyId memberId payload hostId).1 = db := by
  rcases findMember_spec hfm with ⟨hmmem, hmid⟩
  rcases findParty_spec hfp with ⟨hpmem, hpid⟩
  subst hpid
  subst hmid
  have hmv : moveIfRequested db party member payload =
      Except.ok (db, member, resolveCurrentSlot db member) := by
    unfold moveIfRequested
    rcases hslot with hnone | hsame
    · rw [hnone]
    · cases hmslot : member.slotId with
      | none => rw [hsame, hmslot]
      | some t =>
        rw [hsame, hmslot]
        simp
  have hens : ensureCapacityConstraints db party (resolveCurrentSlot db member) member
      payload.state = Except.ok () := by
    unfold ensureCapacityConstraints
    cases hcb : confirmedB payload.state with
    | false => simp
    | true =>
      rw [if_pos rfl]
      have hcbm : confirmedB member.state = true := by rw [← hstate]; exact hcb
      have hslotOk : ensureSlotCapacity db party (resolveCurrentSlot db member) member =
          Except.ok () := by
        cases hms : member.slotId with
        | none =>
          simp only [resolveCurrentSlot, hms]
          rfl
        | some sid =>
          simp only [resolveCurrentSlot, hms]
          by_cases hz : sid = 0
          · rw [if_pos hz]
            rfl
          · rw [if_neg hz]
            cases hfsl : findSlot db sid with
            | none => rfl
            | some slot =>
              cases hlim : slotLimit slot party with
              | none =>
                show (match slotLimit slot party with
                  | none => Except.ok ()
                  | some lim =>
                    if lim ≤ slotConfirmedCountExcl db slot.id member.id then
                      Except.error Err.slotCapacityExceeded
                    else Except.ok ()) = Except.ok ()
                rw [hlim]
              | some lim =>
                show (match slotLimit slot party with
                  | none => Except.ok ()
                  | some lim =>
                    if lim ≤ slotConfirmedCountExcl db slot.id member.id then
                      Except.error Err.slotCapacityExceeded
                    else Except.ok ()) = Except.ok ()
                rw [hlim]
                rcases findSlot_spec hfsl with ⟨hslm, hslid⟩
                have hcount := hslotB sid slot lim hms hfsl hlim
                have hex : db.members.countP (fun m =>
                    (m.slotId == some sid && confirmedB m.state) && m.id != member.id) <
                    db.members.countP (fun m => m.slotId == some sid && confirmedB m.state) :=
                  countP_excl_lt_of_mem db.members
                    (fun m => m.slotId == some sid && confirmedB m.state) member.id member
                    hmmem rfl (by simp [hms, hcbm])
                have hlt : slotConfirmedCountExcl db slot.id member.id < lim := by
                  unfold slotConfirmedCountExcl
                  unfold slotConfirmedCount at hcount
                  rw [hslid]
                  omega
                show (if lim ≤ slotConfirmedCountExcl db slot.id member.id then
                    Except.error Err.slotCapacityExceeded
                  else Except.ok ()) = Except.ok ()
                rw [if_neg (by omega)]
      cases hct : capTruthy party.capacity with
      | none => exact hslotOk
      | some c =>
        have hcnt := hcapB c hct
        have hex : db.members.countP (fun m =>
            (m.partyId == party.id && confirmedB m.state) && m.id != member.id) <
            db.members.countP (fun m => m.partyId == party.id && confirmedB m.state) :=
          countP_excl_lt_of_mem db.members
            (fun m => m.partyId == party.id && confirmedB m.state) member.id member
            hmmem rfl (by simp [hmp, hcbm])
        have hlt : confirmedCountExcl db party.id member.id < c := by
          unfold confirmedCountExcl
          unfold confirmedCount at hcnt
          omega
        show (if c ≤ confirmedCountExcl db party.id member.id then
            Except.error Err.capacityExceeded
          else ensureSlotCapacity db party (resolveCurrentSlot db member) member) =
          Except.ok ()
        rw [if_neg (by omega)]
        exact hslotOk
  have hmap : db.members.map (updIf member.id
      (fun m => { m with state := payload.state })) = db.members := by
    apply map_updIf_id_eq
    intro m hm hmeq
    have hme : m = member := mem_id_unique hnd hm hmmem hmeq
    subst hme
    rw [hstate]
  unfold updateMemberState
  rw [hfp]
  simp only []
  rw [if_neg (not_not_intro hhost), hfm]
  simp only []
  rw [if_neg (not_not_intro hmp), hmv]
  simp only []
  rw [hens]
  simp only []
  constructor
  · show Except.ok { member with state := payload.state } = Except.ok member
    rw [hstate]
  · show setMember db member.id (fun m => { m with state := payload.state }) = db
    unfold setMember
    rw [hmap]

def c5wparty : Party :=
  { id := 1, title := "t", visibility := PartyVisibility.pub, capacity := some 1,
    openSlotCount := none, hostId := "h", hostName := "hn", inviteCode := none }

def c5wmember : Member :=
  { id := 2, partyId := 1, slotId := none, applicantName := "a",
    state := MemberState.accepted }

def c5wdb : DB :=
  { parties := [c5wparty], slots := [], members := [c5wmember],
    messages := [], nextId := 3 }

theorem c5_selftransition_noop_witness :
    (updateMemberState c5wdb 1 2
        { state := MemberState.accepted, slotId := none } "h").2 =
      Except.ok c5wmember ∧
    (updateMemberState c5wdb 1 2
        { state := MemberState.accepted, slotId := none } "h").1 = c5wdb :=
  c5_selftransition_noop c5wdb 1 2 { state := MemberState.accepted, slotId := none } "h"
    c5wparty c5wmember (by decide) (by decide) (by decide) (by decide) (by decide)
    (by decide) (Or.inl rfl)
    (by
      intro c hc
      have hc1 : c = 1 := by
        have h1 : capTruthy (some 1) = some 1 := rfl
        have h2 : capTruthy c5wparty.capacity = capTruthy (some 1) := rfl
        rw [h2, h1] at hc
        exact (Option.some.inj hc).symm
      subst hc1
      decide)
    (by
      intro sid slot lim hms
      have hnone : c5wmember.slotId = none := rfl
      rw [hnone] at hms
      cases hms)

/-! ### Claim C6 -/

theorem ensureSlotCapacity_ne_perm (db : DB) (party : Party) (ts : Option Slot)
    (member : Member) :
    ensureSlotCapacity db party ts member ≠ Except.error Err.permissionDenied := by
  unfold ensureSlotCapacity
  split
  · simp
  · split
    · simp
    · split
      · simp
      · simp

theorem ensureCapacity_ne_perm (db : DB) (party : Party) (ts : Option Slot)
    (member : Member) (tstate : MemberState) :
    ensureCapacityConstraints db party ts member tstate ≠
      Except.error Err.permissionDenied := by
  unfold ensureCapacityConstraints
  split
  · split
    · split
      · simp
      · exact ensureSlotCapacity_ne_perm db party ts member
    · exact ensureSlotCapacity_ne_perm db party ts member
  · simp

theorem moveMemberToSlot_ne_perm (db : DB) (party : Party) (member : Member)
    (t : Nat) (tstate : MemberState) :
    moveMemberToSlot db party member t tstate ≠
      Except.error Err.permissionDenied := by
  unfold moveMemberToSlot
  split
  · simp
  · split
    · simp
    · split
      · simp
      · split
        · simp
        · split
          · simp
          · split
            · rename_i e heq
              intro hcon
              injection hcon with hcon
              subst hcon
              exact ensureCapacity_ne_perm _ _ _ _ _ heq
            · simp

theorem moveIfRequested_ne_perm (db : DB) (party : Party) (member : Member)
    (payload : StateUpdate) :
    moveIfRequested db party member payload ≠
      Except.error Err.permissionDenied := by
  unfold moveIfRequested
  split
  · simp
  · split
    · simp
    · split
      · rename_i e heq
        intro hcon
        injection hcon with hcon
        subst hcon
        exact moveMemberToSlot_ne_perm _ _ _ _ _ heq
      · simp

def c6user : User := { username := "alice", role := UserRole.admin }

def c6party : Party :=
  { id := 1, title := "t", visibility := PartyVisibility.pub, capacity := none,
    openSlotCount := none, hostId := "h", hostName := "hn", inviteCode := none }

def c6db : DB :=
  { parties := [c6party], slots := [],
    members := [{ id := 2, partyId := 1, slotId := none, applicantName := "a",
                  state := MemberState.applied }],
    messages := [], nextId := 3 }

/-- C6 counterexample: a caller holding the admin role (per the User
record) who is not the party's host is denied.  The transition endpoint
authorizes via verify_host_permission (services.py:8-14), which compares
only the host_id string and never consults any role, so there is no admin
bypass. -/
theorem c6_admin_denied_counterexample :
    c6user.role = UserRole.admin ∧ c6party.hostId ≠ c6user.username ∧
    (updateMemberState c6db 1 2 { state := MemberState.accepted, slotId := none }
        c6user.username).2 = Except.error Err.permissionDenied := by decide

/-- C6 (amended): a member-state transition fails with PermissionDenied if
and only if the party exists and the supplied host_id differs from the
party's host_id.  The caller's role is never consulted, so an admin who is
not the host is denied like any other caller. -/
theorem c6_permission_iff (db : DB) (partyId memberId : Nat) (payload : StateUpdate)
    (hostId : String) :
    (updateMemberState db partyId memberId payload hostId).2 =
        Except.error Err.permissionDenied ↔
      (∃ party, findParty db partyId = some party ∧ party.hostId ≠ hostId) := by
  unfold updateMemberState
  cases hfp : findParty db partyId with
  | none =>
    simp only []
    constructor
    · intro h
      cases h
    · rintro ⟨party, hp, -⟩
      cases hp
  | some party =>
    simp only []
    by_cases hh : party.hostId ≠ hostId
    · rw [if_pos hh]
      constructor
      · intro _
        exact ⟨party, rfl, hh⟩
      · intro _
        rfl
    · rw [if_neg hh]
      have hhe : party.hostId = hostId := not_not.mp hh
      constructor
      · intro h
        exfalso
        revert h
        cases hfm : findMember db memberId with
        | none =>
          simp only []
          intro h
          cases h
        | some member =>
          simp only []
          split
          · intro h
            cases h
          · cases hmv : moveIfRequested db party member payload with
            | error e =>
              simp only []
              intro h
              injection h with h
              subst h
              exact moveIfRequested_ne_perm _ _ _ _ hmv
            | ok res =>
              obtain ⟨work, member1, ts⟩ := res
              simp only []
              cases hec : ensureCapacityConstraints work party ts member1 payload.state with
              | error e =>
                simp only []
                intro h
                injection h with h
                subst h
                exact ensureCapacity_ne_perm _ _ _ _ _ hec
              | ok u =>
                cases u
                simp only []
                intro h
                cases h
      · rintro ⟨party2, hp2, hne2⟩
        exfalso
        injection hp2 with hp2
        rw [← hp2] at hne2
        exact hne2 hhe

/-! ### Claim C7 -/

/-- C7: posting a chat message whose content is empty or whitespace-only
always fails, persists no ChatMessage record, and delivers nothing to any
connection on the party's channel; whenever the caller passes the
membership check the error is EmptyMessage (an invalid member is rejected
by the earlier authorization check instead, still with no record and no
broadcast). -/
theorem c7_empty_message (db : DB) (mgr : Manager) (partyId : Nat)
    (payload : ChatCreate) (h : blankContent payload.content = true) :
    (∃ e, (postChatMessage db mgr partyId payload).2.2 = Except.error e) ∧
    (postChatMessage db mgr partyId payload).1 = db ∧
    (postChatMessage db mgr partyId payload).2.1 = ∅ ∧
    (∀ member, requireActiveMember db partyId payload.memberId = Except.ok member →
      (postChatMessage db mgr partyId payload).2.2 = Except.error Err.emptyMessage) := by
  unfold postChatMessage
  cases hra : requireActiveMember db partyId payload.memberId with
  | error e =>
    simp only []
    exact ⟨⟨e, rfl⟩, trivial, trivial, fun member hm => by cases hm⟩
  | ok member =>
    simp only []
    rw [if_pos h]
    refine ⟨⟨Err.emptyMessage, rfl⟩, ?_, ?_, fun m _ => rfl⟩ <;> trivial

def c7member : Member :=
  { id := 2, partyId := 1, slotId := none, applicantName := "a",
    state := MemberState.accepted }

def c7db : DB :=
  { parties := [{ id := 1, title := "t", visibility := PartyVisibility.pub,
                  capacity := none, openSlotCount := none, hostId := "h",
                  hostName := "hn", inviteCode := none }],
    slots := [], members := [c7member], messages := [], nextId := 3 }

def c7mgr : Manager := { keys := ∅, chan := fun _ => ∅ }

def c7payload : ChatCreate := { memberId := 2, content := "  ", authorName := none }

theorem c7_empty_message_witness :
    (postChatMessage c7db c7mgr 1 c7payload).1 = c7db ∧
    (postChatMessage c7db c7mgr 1 c7payload).2.1 = ∅ ∧
    (postChatMessage c7db c7mgr 1 c7payload).2.2 = Except.error Err.emptyMessage := by
  have hth := c7_empty_message c7db c7mgr 1 c7payload (by decide)
  exact ⟨hth.2.1, hth.2.2.1, hth.2.2.2 c7member (by decide)⟩

/-! ### Claim C8 -/

/-- C8: openSlots returns None (unbounded) when the party's capacity is
unset; otherwise, for capacity N and current slot count c, it returns
max(N - c, 0), which is never negative. -/
theorem c8_open_slots (db : DB) (party : Party) :
    (party.capacity = none → calculateOpenSlotCount db party = none) ∧
    (∀ N c : Nat, party.capacity = some N → slotCount db party.id = c →
      calculateOpenSlotCount db party = some (max ((N : Int) - (c : Int)) 0) ∧
      (0 : Int) ≤ max ((N : Int) - (c : Int)) 0) := by
  constructor
  · intro h
    unfold calculateOpenSlotCount
    rw [h]
  · intro N c hN hc
    unfold calculateOpenSlotCount
    rw [hN, hc]
    exact ⟨rfl, le_max_right _ _⟩

def c8ops : List Op :=
  [Op.createParty { title := "t", visibility := PartyVisibility.pub, capacity := some 3,
                    hostId := "h", hostName := "hn", inviteCode := none },
   Op.createSlot 1 { role := "dps", ipTarget := none } "h"]

def c8party : Party :=
  { id := 1, title := "t", visibility := PartyVisibility.pub, capacity := some 3,
    openSlotCount := some 2, hostId := "h", hostName := "hn", inviteCode := none }

theorem c8_open_slots_witness :
    calculateOpenSlotCount (runOps c8ops) c8party = some (max ((3 : Int) - (1 : Int)) 0) ∧
    (0 : Int) ≤ max ((3 : Int) - (1 : Int)) 0 :=
  (c8_open_slots (runOps c8ops) c8party).2 3 1 (by decide) (by decide)

/-! ### Claim C9 -/

/-- Well-formedness of the connection registry: every party id present in
the dict maps to a non-empty set of connections. -/
def ManagerWF (m : Manager) : Prop := ∀ pid ∈ m.keys, m.chan pid ≠ ∅

theorem manager_ext {m1 m2 : Manager} (hk : m1.keys = m2.keys)
    (hc : m1.chan = m2.chan) : m1 = m2 := by
  cases m1
  cases m2
  cases hk
  cases hc
  rfl

theorem connect_WF {m : Manager} (h : ManagerWF m) (pid ws : Nat) :
    ManagerWF (m.connect pid ws) := by
  intro p hp
  show Function.update m.chan pid (insert ws (channelSet m pid)) p ≠ ∅
  by_cases hpe : p = pid
  · subst hpe
    rw [Function.update_same]
    exact Finset.insert_ne_empty _ _
  · rw [Function.update_noteq hpe]
    have hp2 : p ∈ m.keys := by
      unfold Manager.connect at hp
      rcases Finset.mem_insert.mp hp with hc | hc
      · exact absurd hc hpe
      · exact hc
    exact h p hp2

theorem disconnect_WF {m : Manager} (h : ManagerWF m) (pid ws : Nat) :
    ManagerWF (m.disconnect pid ws) := by
  unfold Manager.disconnect
  by_cases hin : pid ∈ m.keys
  · rw [if_pos hin]
    by_cases hemp : (m.chan pid).erase ws = ∅
    · rw [if_pos hemp]
      intro p hp
      simp only [] at hp
      have hpne : p ≠ pid := Finset.ne_of_mem_erase hp
      show Function.update m.chan pid ((m.chan pid).erase ws) p ≠ ∅
      rw [Function.update_noteq hpne]
      exact h p (Finset.mem_of_mem_erase hp)
    · rw [if_neg hemp]
      intro p hp
      simp only [] at hp
      show Function.update m.chan pid ((m.chan pid).erase ws) p ≠ ∅
      by_cases hpe : p = pid
      · subst hpe
        rw [Function.update_same]
        exact hemp
      · rw [Function.update_noteq hpe]
        exact h p hp
  · rw [if_neg hin]
    exact h

theorem broadcastClean_WF {m : Manager} (h : ManagerWF m) (pid : Nat)
    (failing : List Nat) : ManagerWF (m.broadcastClean pid failing) := by
  unfold Manager.broadcastClean
  generalize (channelSet m pid).sort (· ≤ ·) = l
  induction l generalizing m with
  | nil => exact h
  | cons a t ih =>
    simp only [List.foldl_cons]
    by_cases ha : a ∈ failing
    · rw [if_pos ha]
      exact ih (disconnect_WF h pid a)
    · rw [if_neg ha]
      exact ih h

/-- The broadcaster operations the registry is exercised with. -/
inductive ChanOp where
  | connect (pid ws : Nat)
  | disconnect (pid ws : Nat)
  | broadcast (pid : Nat) (failing : List Nat)

def initManager : Manager := { keys := ∅, chan := fun _ => ∅ }

def stepChan (m : Manager) : ChanOp → Manager
  | ChanOp.connect pid ws => m.connect pid ws
  | ChanOp.disconnect pid ws => m.disconnect pid ws
  | ChanOp.broadcast pid failing => m.broadcastClean pid failing

def runChan (ops : List ChanOp) : Manager := ops.foldl stepChan initManager

theorem initManager_WF : ManagerWF initManager := by
  intro p hp
  simp [initManager] at hp

theorem stepChan_WF {m : Manager} (h : ManagerWF m) (op : ChanOp) :
    ManagerWF (stepChan m op) := by
  cases op with
  | connect pid ws => exact connect_WF h pid ws
  | disconnect pid ws => exact disconnect_WF h pid ws
  | broadcast pid failing => exact broadcastClean_WF h pid failing

/-- C9: the connection registry stays well-formed under every sequence of
subscribe, unsubscribe and publish calls — subscribing the same connection
to the same party twice equals subscribing it once (set semantics), and
every party id present in the registry maps to a non-empty connection set
(a channel emptied by unsubscribe is dropped). -/
theorem c9_manager_registry :
    (∀ (m : Manager) (pid ws : Nat),
      (m.connect pid ws).connect pid ws = m.connect pid ws) ∧
    (∀ ops : List ChanOp, ManagerWF (runChan ops)) := by
  constructor
  · intro m pid ws
    apply manager_ext
    · show insert pid (insert pid m.keys) = insert pid m.keys
      exact Finset.insert_idem pid m.keys
    · show Function.update (Function.update m.chan pid
          (insert ws (channelSet m pid))) pid
          (insert ws (channelSet (m.connect pid ws) pid)) =
        Function.update m.chan pid (insert ws (channelSet m pid))
      rw [Function.update_idem]
      have hch : channelSet (m.connect pid ws) pid = insert ws (channelSet m pid) := by
        unfold channelSet Manager.connect
        rw [if_pos (Finset.mem_insert_self pid m.keys)]
        show Function.update m.chan pid (insert ws (channelSet m pid)) pid =
          insert ws (if pid ∈ m.keys then m.chan pid else ∅)
        rw [Function.update_same]
        unfold channelSet
        rfl
      rw [hch, Finset.insert_idem]
  · intro ops
    unfold runChan
    suffices hgen : ∀ m, ManagerWF m → ManagerWF (ops.foldl stepChan m) from
      hgen initManager initManager_WF
    induction ops with
    | nil => exact fun m hm => hm
    | cons op t ih => exact fun m hm => ih (stepChan m op) (stepChan_WF hm op)

/-! ### Claim C10 -/

/-- C10: chat authorization rejects only a missing or cross-party
membership record and the REJECTED state — _require_active_member succeeds
exactly when the party exists and the member record exists, belongs to the
party, and is not REJECTED; consequently a member in state KICKED (likewise
WAITING or APPLIED) can still post chat messages and read chat history for
the party it was kicked from. -/
theorem c10_chat_auth :
    (∀ (db : DB) (partyId memberId : Nat) (m : Member),
      requireActiveMember db partyId memberId = Except.ok m ↔
        ((findParty db partyId).isSome = true ∧ findMember db memberId = some m ∧
         m.partyId = partyId ∧ m.state ≠ MemberState.rejected)) ∧
    (∀ (db : DB) (mgr : Manager) (partyId : Nat) (payload : ChatCreate) (m : Member),
      requireActiveMember db partyId payload.memberId = Except.ok m →
      blankContent payload.content = false →
      ∃ msg, (postChatMessage db mgr partyId payload).2.2 = Except.ok msg ∧
        (postChatMessage db mgr partyId payload).1.messages = db.messages ++ [msg]) ∧
    (∀ (db : DB) (partyId memberId limit : Nat) (m : Member),
      requireActiveMember db partyId memberId = Except.ok m →
      ∃ msgs, getChatHistory db partyId memberId limit = Except.ok msgs) := by
  refine ⟨?_, ?_, ?_⟩
  · intro db partyId memberId m
    unfold requireActiveMember
    cases hfp : findParty db partyId with
    | none =>
      simp only []
      constructor
      · intro h
        cases h
      · rintro ⟨hp, -⟩
        cases hp
    | some party =>
      simp only []
      cases hfm : findMember db memberId with
      | none =>
        constructor
        · intro h
          cases h
        · rintro ⟨-, hm, -⟩
          cases hm
      | some m0 =>
        simp only []
        by_cases hpid : m0.partyId ≠ partyId
        · rw [if_pos hpid]
          constructor
          · intro h
            cases h
          · rintro ⟨-, hm, hpe, -⟩
            injection hm with hm
            subst hm
            exact absurd hpe hpid
        · rw [if_neg hpid]
          by_cases hst : m0.state = MemberState.rejected
          · rw [if_pos hst]
            constructor
            · intro h
              cases h
            · rintro ⟨-, hm, -, hsne⟩
              injection hm with hm
              subst hm
              exact absurd hst hsne
          · rw [if_neg hst]
            constructor
            · intro h
              injection h with h
              subst h
              exact ⟨rfl, rfl, not_not.mp hpid, hst⟩
            · rintro ⟨-, hm, -, -⟩
              injection hm with hm
              rw [hm]
  · intro db mgr partyId payload m hra hblank
    unfold postChatMessage
    rw [hra]
    simp only []
    rw [if_neg (by rw [hblank]; simp)]
    exact ⟨_, rfl, rfl⟩
  · intro db partyId memberId limit m hra
    unfold getChatHistory
    rw [hra]
    exact ⟨_, rfl⟩

def c10member : Member :=
  { id := 2, partyId := 1, slotId := none, applicantName := "a",
    state := MemberState.kicked }

def c10db : DB :=
  { parties := [{ id := 1, title := "t", visibility := PartyVisibility.pub,
                  capacity := none, openSlotCount := none, hostId := "h",
                  hostName := "hn", inviteCode := none }],
    slots := [], members := [c10member], messages := [], nextId := 3 }

def c10mgr : Manager := { keys := ∅, chan := fun _ => ∅ }

def c10payload : ChatCreate := { memberId := 2, content := "hi", authorName := none }

theorem c10_chat_auth_witness :
    c10member.state = MemberState.kicked ∧
    (∃ msg, (postChatMessage c10db c10mgr 1 c10payload).2.2 = Except.ok msg ∧
      (postChatMessage c10db c10mgr 1 c10payload).1.messages =
        c10db.messages ++ [msg]) ∧
    (∃ msgs, getChatHistory c10db 1 2 50 = Except.ok msgs) :=
  ⟨by decide,
   c10_chat_auth.2.1 c10db c10mgr 1 c10payload c10member (by decide) (by decide),
   c10_chat_auth.2.2 c10db 1 2 50 c10member (by decide)⟩
